import Mathlib

/-!
# Verification of the hyper-evm-toolkit CLOB core

A shallow embedding of the matching-engine core of the repository:
the price-level FIFO (`bridge: engine/price-level.ts`), the skip-list side
index (`engine/skip-list.ts`, modelled by its observable ordered-map
behaviour: the PRNG-driven tower promotion changes only internal links,
never the key-ordered contents), the per-symbol order book
(`bridge/src/engine/order-book.ts`), the multi-symbol matching engine and
its command-log replay (`engine/matching-engine.ts`), the append-only
command log (`logging/command-log.ts`), the seeded PRNG (`utils/prng.ts`)
and the virtual mempool (`bridge/virtual-mempool.ts`).

JavaScript numbers are modelled as `ℚ` (all arithmetic in the engine is
on quantities and prices where the code relies on exact behaviour;
`Number.isFinite` is constantly true in this model), `bigint` gas fields
as `ℕ`, strings as `String`.  `buildId` (crypto.randomUUID) is modelled
as drawing from an opaque injective stream of strings threaded through
the computation.
-/

namespace HyperEvm

/-- `'buy' | 'sell'` from types/order.ts. -/
inductive Side where
  | buy
  | sell
deriving DecidableEq, Repr

/-- `'limit' | 'market'` from types/order.ts. -/
inductive OrderKind where
  | limit
  | market
deriving DecidableEq, Repr

/-- `'GTC' | 'IOC' | 'FOK'` from types/order.ts. -/
inductive TimeInForce where
  | GTC
  | IOC
  | FOK
deriving DecidableEq, Repr

/-- Order status strings from types/order.ts. -/
inductive OrderStatus where
  | new
  | partiallyFilled
  | filled
  | canceled
  | rejected
  | expired
deriving DecidableEq, Repr

/-- `'none' | 'cancel_newest' | 'cancel_oldest' | 'cancel_both'`. -/
inductive StpMode where
  | none
  | cancelNewest
  | cancelOldest
  | cancelBoth
deriving DecidableEq, Repr

/-- `OrderRequest` from types/order.ts. -/
structure OrderRequest where
  id : Option String
  clientOrderId : Option String
  symbol : String
  userId : String
  side : Side
  kind : OrderKind
  quantity : ℚ
  price : Option ℚ
  timeInForce : Option TimeInForce
  minQuantity : Option ℚ
  icebergDisplayQuantity : Option ℚ
  selfTradePrevention : Option StpMode
deriving DecidableEq, Repr

/-- `BookOrder` from types/order.ts. -/
structure BookOrder where
  id : String
  clientOrderId : Option String
  symbol : String
  userId : String
  side : Side
  kind : OrderKind
  timeInForce : TimeInForce
  status : OrderStatus
  price : Option ℚ
  originalQuantity : ℚ
  remainingQuantity : ℚ
  displayQuantity : ℚ
  displayedRemainingQuantity : ℚ
  reserveRemainingQuantity : ℚ
  minQuantity : ℚ
  selfTradePrevention : StpMode
  createdAtMs : ℕ
  updatedAtMs : ℕ
  sequence : ℕ
deriving DecidableEq, Repr

/-- `OrderEvent` from types/order.ts. -/
structure OrderEvent where
  eventId : String
  orderId : String
  symbol : String
  status : OrderStatus
  reason : Option String
  remainingQuantity : ℚ
  timestampMs : ℕ
  sequence : ℕ
deriving DecidableEq, Repr

/-- `TradeRecord` from types/order.ts. -/
structure TradeRecord where
  tradeId : String
  symbol : String
  price : ℚ
  quantity : ℚ
  takerSide : Side
  takerOrderId : String
  makerOrderId : String
  buyOrderId : String
  sellOrderId : String
  buyUserId : String
  sellUserId : String
  timestampMs : ℕ
  sequence : ℕ
deriving DecidableEq, Repr

/-- One row of a depth snapshot (`DepthLevel` in types/order.ts). -/
structure DepthLevel where
  price : ℚ
  quantity : ℚ
  orderCount : ℤ
deriving DecidableEq, Repr

/-- Model of `buildId` (utils/id.ts): an opaque stream of generated id
strings together with the position of the next draw. -/
structure IdGen where
  stream : ℕ → String
  pos : ℕ

/-- `buildId(prefix)`: returns `prefix + '_' + <fresh opaque string>` and
advances the stream. -/
def buildId (g : IdGen) (pfx : String) : String × IdGen :=
  (pfx ++ "_" ++ g.stream g.pos, { g with pos := g.pos + 1 })

/-! ## Price level FIFO (engine/price-level.ts) -/

/-- `OrderQueueNode`: one queue slot wrapping an order.  Object identity of
the mutable JS node is modelled by a book-unique `nodeId`. -/
structure OrderQueueNode where
  nodeId : ℕ
  order : BookOrder
deriving DecidableEq, Repr

/-- `PriceLevel`: the doubly-linked FIFO is modelled as the list of nodes
from head to tail; `orderCount` and `totalVisibleQuantity` are the stored
counters, updated exactly as the source does. -/
structure PriceLevel where
  price : ℚ
  queue : List OrderQueueNode
  orderCount : ℤ
  totalVisibleQuantity : ℚ
deriving DecidableEq, Repr

namespace PriceLevel

/-- A fresh level (`new PriceLevel(price)`). -/
def mk0 (price : ℚ) : PriceLevel :=
  { price := price, queue := [], orderCount := 0, totalVisibleQuantity := 0 }

/-- `append(node)`. -/
def append (lvl : PriceLevel) (node : OrderQueueNode) : PriceLevel :=
  { lvl with
      queue := lvl.queue ++ [node]
      orderCount := lvl.orderCount + 1
      totalVisibleQuantity :=
        lvl.totalVisibleQuantity + node.order.displayedRemainingQuantity }

/-- `unlink(node)`: splice the node with the given id out of the list
(first occurrence; node ids are unique in a book). -/
def unlink : List OrderQueueNode → ℕ → List OrderQueueNode
  | [], _ => []
  | n :: rest, nid => if n.nodeId = nid then rest else n :: unlink rest nid

/-- `remove(node)`: unlink and maintain the counters, subtracting the
departing order's displayed slice, never its hidden reserve. -/
def remove (lvl : PriceLevel) (node : OrderQueueNode) : PriceLevel :=
  { lvl with
      queue := unlink lvl.queue node.nodeId
      orderCount := lvl.orderCount - 1
      totalVisibleQuantity :=
        lvl.totalVisibleQuantity - node.order.displayedRemainingQuantity }

/-- `moveToTail(node)`: no-op when the node already is the tail, else
unlink and re-append at the tail. -/
def moveToTail (lvl : PriceLevel) (node : OrderQueueNode) : PriceLevel :=
  match lvl.queue.getLast? with
  | some t =>
      if t.nodeId = node.nodeId then lvl
      else { lvl with queue := unlink lvl.queue node.nodeId ++ [node] }
  | none => { lvl with queue := unlink lvl.queue node.nodeId ++ [node] }

/-- `reduceVisibleQuantity(delta)`. -/
def reduceVisibleQuantity (lvl : PriceLevel) (delta : ℚ) : PriceLevel :=
  { lvl with totalVisibleQuantity := lvl.totalVisibleQuantity - delta }

/-- `increaseVisibleQuantity(delta)`. -/
def increaseVisibleQuantity (lvl : PriceLevel) (delta : ℚ) : PriceLevel :=
  { lvl with totalVisibleQuantity := lvl.totalVisibleQuantity + delta }

/-- `isEmpty()`: `orderCount <= 0 || !head`. -/
def isEmpty (lvl : PriceLevel) : Bool :=
  lvl.orderCount ≤ 0 || lvl.queue.isEmpty

end PriceLevel

/-! ## Skip-list side index (engine/skip-list.ts)

The `NumericSkipList` is an ordered numeric map.  Its observable
behaviour (`get`, `upsert`, `delete`, `first`, `entries`) is that of a
key-sorted association list with unique keys; the seeded PRNG only decides
tower heights, i.e. the internal link structure.  We model it by that
sorted association list. -/

/-- The side index: entries sorted ascending by sort key. -/
abbrev SideIndex := List (ℚ × PriceLevel)

namespace SideIndex

/-- `get(key)`. -/
def get (s : SideIndex) (k : ℚ) : Option PriceLevel :=
  match s.find? (fun e => e.1 = k) with
  | some e => some e.2
  | none => none

/-- `upsert(key, value)`: replace in place, or insert keeping keys sorted
(the skip list keeps keys in ascending order). -/
def upsert : SideIndex → ℚ → PriceLevel → SideIndex
  | [], k, v => [(k, v)]
  | (k', v') :: rest, k, v =>
      if k = k' then (k, v) :: rest
      else if k < k' then (k, v) :: (k', v') :: rest
      else (k', v') :: upsert rest k v

/-- `delete(key)` (the boolean result is not used by the book on paths we
model beyond discarding it). -/
def del : SideIndex → ℚ → SideIndex
  | [], _ => []
  | (k', v') :: rest, k => if k' = k then rest else (k', v') :: del rest k

/-- `first()`: the minimum-key entry. -/
def first (s : SideIndex) : Option (ℚ × PriceLevel) :=
  s.head?

/-- `entries(limit?)` as an eager list. -/
def entries (s : SideIndex) : Option ℕ → List (ℚ × PriceLevel)
  | some limit => s.take limit
  | none => s

end SideIndex

end HyperEvm

namespace HyperEvm

/-! ## Order book state (bridge/src/engine/order-book.ts) -/

/-- `OrderBookOptions`. -/
structure OrderBookOptions where
  tickSize : ℚ
  lotSize : ℚ
  minOrderQuantity : ℚ
  maxDepth : ℕ
  seed : ℕ
deriving DecidableEq, Repr

/-- `OrderReference` (`{level, node, side}`): the level reference is
located by side and price; the node by its book-unique id. -/
structure OrderRef where
  side : Side
  price : ℚ
  nodeId : ℕ
deriving DecidableEq, Repr

/-- The `OrderBook` state: two side indices, `ordersById`, the trade and
event rings, the per-book sequence counter, and the allocator for node
identities. -/
structure Book where
  symbol : String
  options : OrderBookOptions
  bids : SideIndex
  asks : SideIndex
  ordersById : List (String × OrderRef)
  trades : List TradeRecord
  events : List OrderEvent
  sequence : ℕ
  nextNodeId : ℕ

/-- A fresh book for a symbol (`new OrderBook(symbol, options)`). -/
def Book.init (symbol : String) (options : OrderBookOptions) : Book :=
  { symbol := symbol, options := options, bids := [], asks := [],
    ordersById := [], trades := [], events := [], sequence := 0,
    nextNodeId := 0 }

/-- First-match lookup in a string-keyed JS `Map` modelled as an
association list in insertion order. -/
def mapGet {α : Type} (l : List (String × α)) (k : String) : Option α :=
  match l.find? (fun e => e.1 = k) with
  | some e => some e.2
  | none => none

/-- `Map.set`: overwrite in place, or append. -/
def mapSet {α : Type} : List (String × α) → String → α → List (String × α)
  | [], k, v => [(k, v)]
  | (k', v') :: rest, k, v =>
      if k' = k then (k, v) :: rest else (k', v') :: mapSet rest k v

/-- `Map.delete`. -/
def mapDel {α : Type} : List (String × α) → String → List (String × α)
  | [], _ => []
  | (k', v') :: rest, k => if k' = k then rest else (k', v') :: mapDel rest k

namespace Book

/-- `toInternalPrice`: `side === 'buy' ? -price : price`, so `first()`
of either index is the best level of that side. -/
def toInternalPrice (side : Side) (price : ℚ) : ℚ :=
  match side with
  | .buy => -price
  | .sell => price

/-- `indexForSide`. -/
def indexForSide (b : Book) (side : Side) : SideIndex :=
  match side with
  | .buy => b.bids
  | .sell => b.asks

/-- Write back the side index chosen by `indexForSide`. -/
def setIndexForSide (b : Book) (side : Side) (idx : SideIndex) : Book :=
  match side with
  | .buy => { b with bids := idx }
  | .sell => { b with asks := idx }

/-- `oppositeSide`. -/
def oppositeSide : Side → Side
  | .buy => .sell
  | .sell => .buy

/-- `isCrossingPrice(side, incomingPrice, bookPrice)`. -/
def isCrossingPrice (side : Side) (incomingPrice bookPrice : ℚ) : Bool :=
  match side with
  | .buy => incomingPrice ≥ bookPrice
  | .sell => incomingPrice ≤ bookPrice

/-- The loop-exit check `takerOrder.kind === 'limit' && takerOrder.price
!== undefined && !isCrossingPrice(...)` shared by the matching loop and
the FOK liquidity walk. -/
def stopsCrossing (o : BookOrder) (bookPrice : ℚ) : Bool :=
  match o.kind, o.price with
  | .limit, some p => ¬ isCrossingPrice o.side p bookPrice
  | _, _ => false

/-- `isStepMultiple(value, step)`: relative tolerance of `1e-9` of a step
around the nearest integer quotient (`Math.round` rounds half towards
positive infinity, as does Mathlib's `round`). -/
def isStepMultiple (value step : ℚ) : Bool :=
  if step ≤ 0 then false
  else |value / step - round (value / step)| ≤ 1 / 1000000000

/-- The `kind === 'limit'` block of `validateRequest`: price must be
present, finite and positive, and tick-aligned. -/
def validateLimitPrice (b : Book) (request : OrderRequest) : Option String :=
  if request.kind = .limit then
    match request.price with
    | Option.none => some "invalid_limit_price"
    | some p =>
        if p ≤ 0 then some "invalid_limit_price"
        else if ¬ isStepMultiple p b.options.tickSize then
          some "price_not_tick_multiple"
        else Option.none
  else Option.none

/-- The `minQuantity !== undefined` block of `validateRequest`. -/
def validateMinQuantity (b : Book) (request : OrderRequest) : Option String :=
  match request.minQuantity with
  | some mq =>
      if mq ≤ 0 ∨ mq > request.quantity then some "invalid_min_quantity"
      else if ¬ isStepMultiple mq b.options.lotSize then
        some "min_quantity_not_lot_multiple"
      else Option.none
  | Option.none => Option.none

/-- The `icebergDisplayQuantity !== undefined` block of `validateRequest`. -/
def validateIceberg (b : Book) (request : OrderRequest) : Option String :=
  match request.icebergDisplayQuantity with
  | some dq =>
      if request.kind ≠ .limit then some "iceberg_requires_limit_order"
      else if dq ≤ 0 ∨ dq > request.quantity ∨
          ¬ isStepMultiple dq b.options.lotSize then
        some "invalid_iceberg_display_quantity"
      else Option.none
  | Option.none => Option.none

/-- `validateRequest`: order of checks as in the source; the first failed
check gives the rejection reason. -/
def validateRequest (b : Book) (request : OrderRequest) : Option String :=
  if request.symbol ≠ b.symbol then some "symbol_mismatch"
  else if request.userId = "" then some "missing_user_id"
  else if request.quantity ≤ 0 then some "invalid_quantity"
  else if ¬ isStepMultiple request.quantity b.options.lotSize then
    some "quantity_not_lot_multiple"
  else if request.quantity < b.options.minOrderQuantity then
    some "quantity_below_minimum"
  else
    match validateLimitPrice b request with
    | some r => some r
    | Option.none =>
        if request.kind = .market ∧ request.price ≠ Option.none then
          some "market_order_cannot_have_price"
        else
          match validateMinQuantity b request with
          | some r => some r
          | Option.none => validateIceberg b request

/-- `resolveTimeInForce`. -/
def resolveTimeInForce (kind : OrderKind) (requestTif : Option TimeInForce) :
    TimeInForce :=
  match kind with
  | .market => requestTif.getD .IOC
  | .limit => requestTif.getD .GTC

/-- `createOrder(request, timestampMs)`: advances the book sequence and
draws the order id from the id stream when the request has none. -/
def createOrder (b : Book) (g : IdGen) (request : OrderRequest)
    (timestampMs : ℕ) : BookOrder × Book × IdGen :=
  let seq := b.sequence + 1
  let tif := resolveTimeInForce request.kind request.timeInForce
  let displayQuantity := request.icebergDisplayQuantity.getD request.quantity
  let displayedRemainingQuantity := min displayQuantity request.quantity
  let reserveRemainingQuantity := request.quantity - displayedRemainingQuantity
  let (oid, g') :=
    match request.id with
    | some i => (i, g)
    | Option.none => buildId g "ord"
  let order : BookOrder :=
    { id := oid
      clientOrderId := request.clientOrderId
      symbol := request.symbol
      userId := request.userId
      side := request.side
      kind := request.kind
      timeInForce := tif
      status := .new
      price := request.price
      originalQuantity := request.quantity
      remainingQuantity := request.quantity
      displayQuantity := displayQuantity
      displayedRemainingQuantity := displayedRemainingQuantity
      reserveRemainingQuantity := reserveRemainingQuantity
      minQuantity := request.minQuantity.getD b.options.minOrderQuantity
      selfTradePrevention := request.selfTradePrevention.getD .none
      createdAtMs := timestampMs
      updatedAtMs := timestampMs
      sequence := seq }
  (order, { b with sequence := seq }, g')

/-- `createOrderEvent(order, status, reason, timestampMs)`: advances the
book sequence, pushes the event on the book's event ring. -/
def createOrderEvent (b : Book) (g : IdGen) (o : BookOrder)
    (status : OrderStatus) (reason : Option String) (timestampMs : ℕ) :
    OrderEvent × Book × IdGen :=
  let seq := b.sequence + 1
  let (eid, g') := buildId g "evt"
  let ev : OrderEvent :=
    { eventId := eid, orderId := o.id, symbol := o.symbol, status := status,
      reason := reason, remainingQuantity := o.remainingQuantity,
      timestampMs := timestampMs, sequence := seq }
  (ev, { b with sequence := seq, events := b.events ++ [ev] }, g')

/-- `createTradeRecord(maker, taker, quantity, price, timestampMs, sequence)`. -/
def createTradeRecord (b : Book) (g : IdGen) (maker taker : BookOrder)
    (quantity price : ℚ) (timestampMs : ℕ) (sequence : ℕ) :
    TradeRecord × IdGen :=
  let buyOrder := if taker.side = .buy then taker else maker
  let sellOrder := if taker.side = .sell then taker else maker
  let (tid, g') := buildId g "trd"
  ({ tradeId := tid, symbol := b.symbol, price := price, quantity := quantity,
     takerSide := taker.side, takerOrderId := taker.id,
     makerOrderId := maker.id, buyOrderId := buyOrder.id,
     sellOrderId := sellOrder.id, buyUserId := buyOrder.userId,
     sellUserId := sellOrder.userId, timestampMs := timestampMs,
     sequence := sequence }, g')

/-- `getBestOppositeLevel(side)`. -/
def getBestOppositeLevel (b : Book) (side : Side) : Option PriceLevel :=
  match side with
  | .buy => (SideIndex.first b.asks).map Prod.snd
  | .sell => (SideIndex.first b.bids).map Prod.snd

/-- `removeLevel(side, price)`. -/
def removeLevel (b : Book) (side : Side) (price : ℚ) : Book :=
  setIndexForSide b side
    (SideIndex.del (indexForSide b side) (toInternalPrice side price))

/-- Write back a mutated level object: in the source the level fetched
from the index is mutated in place; here the entry at its key is replaced. -/
def setLevel (b : Book) (side : Side) (price : ℚ) (lvl : PriceLevel) : Book :=
  setIndexForSide b side
    (SideIndex.upsert (indexForSide b side) (toInternalPrice side price) lvl)

/-- `addOrderToBook(order)` (including `getOrCreateLevel`). -/
def addOrderToBook (b : Book) (o : BookOrder) : Book :=
  match o.price with
  | Option.none => b
  | some price =>
      let key := toInternalPrice o.side price
      let lvl :=
        match SideIndex.get (indexForSide b o.side) key with
        | some l => l
        | Option.none => PriceLevel.mk0 price
      let node : OrderQueueNode := { nodeId := b.nextNodeId, order := o }
      let lvl' := lvl.append node
      let b' := setIndexForSide b o.side
        (SideIndex.upsert (indexForSide b o.side) key lvl')
      { b' with
          nextNodeId := b.nextNodeId + 1
          ordersById := mapSet b'.ordersById o.id
            { side := o.side, price := price, nodeId := node.nodeId } }

/-- `removeOrderFromBook(orderId, node, level, side)`. -/
def removeOrderFromBook (b : Book) (orderId : String) (node : OrderQueueNode)
    (lvl : PriceLevel) (side : Side) : Book :=
  let lvl' := lvl.remove node
  let b' := setLevel b side lvl'.price lvl'
  let b' := { b' with ordersById := mapDel b'.ordersById orderId }
  if lvl'.isEmpty then removeLevel b' side lvl'.price else b'

/-- `prepareOrderForBook(order)`. -/
def prepareOrderForBook (o : BookOrder) : BookOrder :=
  let displayed := min o.displayQuantity o.remainingQuantity
  { o with
      displayedRemainingQuantity := displayed
      reserveRemainingQuantity := o.remainingQuantity - displayed }

/-- The loop body of `hasEnoughLiquidity`: walk levels best-first,
breaking at the first non-crossing level for priced limit orders,
accumulating `totalVisibleQuantity` until it reaches the order's
remaining quantity. -/
def liquidityWalk (o : BookOrder) : List (ℚ × PriceLevel) → ℚ → Bool
  | [], _ => false
  | (_, lvl) :: rest, acc =>
      if stopsCrossing o lvl.price then false
      else
        let acc' := acc + lvl.totalVisibleQuantity
        if acc' ≥ o.remainingQuantity then true else liquidityWalk o rest acc'

/-- `hasEnoughLiquidity(order)`. -/
def hasEnoughLiquidity (b : Book) (o : BookOrder) : Bool :=
  liquidityWalk o (indexForSide b (oppositeSide o.side)) 0

/-- `collectDepth(side, depth)`. -/
def collectDepth (b : Book) (side : Side) (depth : ℕ) : List DepthLevel :=
  (SideIndex.entries (indexForSide b side) (some depth)).map
    fun e =>
      { price := e.2.price, quantity := e.2.totalVisibleQuantity,
        orderCount := e.2.orderCount }

/-- `getDepth(depth = maxDepth)`. -/
def getDepth (b : Book) (depth : Option ℕ := Option.none) :
    List DepthLevel × List DepthLevel :=
  let d := depth.getD b.options.maxDepth
  (collectDepth b .buy d, collectDepth b .sell d)

/-- `getActiveOrderCount()` (`ordersById.size`). -/
def getActiveOrderCount (b : Book) : ℕ :=
  b.ordersById.length

end Book

end HyperEvm

namespace HyperEvm

/-- Result of `resolveSelfTradePrevention`:
`'proceed' | 'continue' | 'cancel_taker' | 'cancel_both'`. -/
inductive StpOutcome where
  | proceed
  | skipMaker
  | cancelTaker
  | cancelBothSides
deriving DecidableEq, Repr

namespace Book

/-- `resolveSelfTradePrevention(taker, maker, makerNode, makerLevel, nowMs)`:
for `cancel_oldest` and `cancel_both` the maker is removed from the book
and its `CANCELED` event goes to the book's event ring (not to the
returned events). -/
def resolveSelfTradePrevention (b : Book) (g : IdGen)
    (takerOrder makerOrder : BookOrder) (makerNode : OrderQueueNode)
    (makerLevel : PriceLevel) (nowMs : ℕ) : StpOutcome × Book × IdGen :=
  if takerOrder.userId ≠ makerOrder.userId then (.proceed, b, g)
  else
    match takerOrder.selfTradePrevention with
    | .none => (.proceed, b, g)
    | .cancelOldest =>
        let b1 := removeOrderFromBook b makerOrder.id makerNode makerLevel
          makerOrder.side
        let maker' := { makerOrder with
                        status := .canceled
                        updatedAtMs := nowMs }
        let (_, b2, g2) := createOrderEvent b1 g maker' .canceled
          (some "self_trade_prevention_cancel_oldest") nowMs
        (.skipMaker, b2, g2)
    | .cancelNewest => (.cancelTaker, b, g)
    | .cancelBoth =>
        let b1 := removeOrderFromBook b makerOrder.id makerNode makerLevel
          makerOrder.side
        let maker' := { makerOrder with
                        status := .canceled
                        updatedAtMs := nowMs }
        let (_, b2, g2) := createOrderEvent b1 g maker' .canceled
          (some "self_trade_prevention_cancel_both") nowMs
        (.cancelBothSides, b2, g2)

/-- Upper bound on the number of iceberg replenishments an order can
still perform. -/
def iceSteps (o : BookOrder) : ℕ :=
  if 0 < o.displayQuantity then
    (Int.toNat ⌈o.reserveRemainingQuantity / o.displayQuantity⌉)
  else 0

/-- Termination weight of one queue node. -/
def nodeWeight (n : OrderQueueNode) : ℕ :=
  1 + (if 0 < n.order.displayedRemainingQuantity then 1 else 0) +
    iceSteps n.order

/-- Termination weight of one price level. -/
def levelWeight (lvl : PriceLevel) : ℕ :=
  1 + (lvl.queue.map nodeWeight).sum

/-- Termination weight of one side index. -/
def sideWeight (s : SideIndex) : ℕ :=
  (s.map (fun e => levelWeight e.2)).sum

/-- Fuel that dominates the iteration count of the matching `while` loop:
every iteration of the source loop that runs another iteration strictly
decreases `sideWeight` of the opposite side (it removes a maker, removes
an empty level, spends one iceberg replenishment, or zeroes the head
maker's displayed slice), so `sideWeight + 1` iterations always reach a
loop exit. -/
def matchFuel (b : Book) (side : Side) : ℕ :=
  sideWeight (indexForSide b (oppositeSide side)) + 1

/-- The body of `matchIncomingOrder`'s `while` loop, with explicit fuel
(see `matchFuel`).  State: id stream, book, the incoming (taker) order,
and the `resultTrades` / `resultEvents` accumulators. -/
def matchLoop (nowMs : ℕ) :
    ℕ → IdGen → Book → BookOrder → List TradeRecord → List OrderEvent →
    IdGen × Book × BookOrder × List TradeRecord × List OrderEvent
  | 0, g, b, taker, tr, ev => (g, b, taker, tr, ev)
  | fuel + 1, g, b, taker, tr, ev =>
    if ¬ taker.remainingQuantity > 0 then (g, b, taker, tr, ev)
    else
      match getBestOppositeLevel b taker.side with
      | Option.none => (g, b, taker, tr, ev)
      | some bestLevel =>
        if stopsCrossing taker bestLevel.price = true then
          (g, b, taker, tr, ev)
        else
          match bestLevel.queue with
          | [] =>
              matchLoop nowMs fuel g
                (removeLevel b (oppositeSide taker.side) bestLevel.price)
                taker tr ev
          | makerNode :: restQ =>
            let makerOrder := makerNode.order
            let (stpOutcome, bStp, gStp) := resolveSelfTradePrevention b g
              taker makerOrder makerNode bestLevel nowMs
            match stpOutcome with
            | .skipMaker => matchLoop nowMs fuel gStp bStp taker tr ev
            | .cancelTaker =>
                let taker1 := { taker with status := .canceled }
                let (stpEvent, b1, g1) := createOrderEvent bStp gStp taker1
                  .canceled (some "self_trade_prevention_cancel_newest") nowMs
                let taker2 := { taker1 with remainingQuantity := 0 }
                (g1, b1, taker2, tr, ev ++ [stpEvent])
            | .cancelBothSides =>
                let taker1 := { taker with status := .canceled }
                let (stpEvent, b1, g1) := createOrderEvent bStp gStp taker1
                  .canceled (some "self_trade_prevention_cancel_both") nowMs
                let taker2 := { taker1 with remainingQuantity := 0 }
                (g1, b1, taker2, tr, ev ++ [stpEvent])
            | .proceed =>
              let activeMaker := makerNode.order
              let executableQuantity :=
                min taker.remainingQuantity
                  activeMaker.displayedRemainingQuantity
              if executableQuantity ≤ 0 then (g, b, taker, tr, ev)
              else
                let seq := b.sequence + 1
                let b1 := { b with sequence := seq }
                let (trade, g1) := createTradeRecord b1 g activeMaker taker
                  executableQuantity bestLevel.price nowMs seq
                let b2 := { b1 with trades := b1.trades ++ [trade] }
                let tr1 := tr ++ [trade]
                let taker1 := { taker with
                  remainingQuantity := taker.remainingQuantity -
                    executableQuantity
                  updatedAtMs := nowMs }
                let maker1 := { activeMaker with
                  remainingQuantity := activeMaker.remainingQuantity -
                    executableQuantity
                  displayedRemainingQuantity :=
                    activeMaker.displayedRemainingQuantity -
                      executableQuantity
                  updatedAtMs := nowMs }
                let node1 : OrderQueueNode :=
                  { nodeId := makerNode.nodeId, order := maker1 }
                let lvl1 :=
                  ({ bestLevel with queue := node1 :: restQ
                     }).reduceVisibleQuantity executableQuantity
                if maker1.remainingQuantity = 0 then
                  let b3 := setLevel b2 (oppositeSide taker.side)
                    lvl1.price lvl1
                  let b4 := removeOrderFromBook b3 maker1.id node1 lvl1
                    maker1.side
                  let maker2 := { maker1 with status := .filled }
                  let (makerFilledEvent, b5, g2) := createOrderEvent b4 g1
                    maker2 .filled Option.none nowMs
                  matchLoop nowMs fuel g2 b5 taker1 tr1
                    (ev ++ [makerFilledEvent])
                else
                  let maker2 := { maker1 with status := .partiallyFilled }
                  if maker2.displayedRemainingQuantity = 0 ∧
                      maker2.reserveRemainingQuantity > 0 then
                    let replenishQuantity := min maker2.displayQuantity
                      maker2.reserveRemainingQuantity
                    let maker3 := { maker2 with
                      displayedRemainingQuantity := replenishQuantity
                      reserveRemainingQuantity :=
                        maker2.reserveRemainingQuantity - replenishQuantity }
                    let node3 : OrderQueueNode :=
                      { nodeId := makerNode.nodeId, order := maker3 }
                    let lvl2 :=
                      (({ lvl1 with queue := node3 :: restQ
                         }).increaseVisibleQuantity
                          replenishQuantity).moveToTail node3
                    let b3 := setLevel b2 (oppositeSide taker.side)
                      lvl2.price lvl2
                    matchLoop nowMs fuel g1 b3 taker1 tr1 ev
                  else
                    let node2 : OrderQueueNode :=
                      { nodeId := makerNode.nodeId, order := maker2 }
                    let lvl2 := { lvl1 with queue := node2 :: restQ }
                    let b3 := setLevel b2 (oppositeSide taker.side)
                      lvl2.price lvl2
                    matchLoop nowMs fuel g1 b3 taker1 tr1 ev

/-- `matchIncomingOrder(takerOrder, nowMs, resultTrades, resultEvents)`. -/
def matchIncomingOrder (b : Book) (g : IdGen) (takerOrder : BookOrder)
    (nowMs : ℕ) :
    IdGen × Book × BookOrder × List TradeRecord × List OrderEvent :=
  matchLoop nowMs (matchFuel b takerOrder.side) g b takerOrder [] []

end Book

/-- `SubmitOrderResult`. -/
structure SubmitOrderResult where
  order : BookOrder
  trades : List TradeRecord
  events : List OrderEvent
deriving DecidableEq, Repr

/-- `CancelOrderResult`. -/
structure CancelOrderResult where
  canceled : Bool
  order : Option BookOrder
  reason : Option String
  event : Option OrderEvent
deriving DecidableEq, Repr

namespace Book

/-- `submitOrder(request, nowMs)`.  (In the source the taker order object
is shared with the node inserted by `addOrderToBook`, so the final status
write is visible through the book; here the status is set before
insertion, which yields the same state.) -/
def submitOrder (b : Book) (g : IdGen) (request : OrderRequest)
    (nowMs : ℕ) : SubmitOrderResult × Book × IdGen :=
  let validationError := validateRequest b request
  let (order, b1, g1) := createOrder b g request nowMs
  match validationError with
  | some reason =>
      let order1 := { order with status := .rejected }
      let (rejectionEvent, b2, g2) := createOrderEvent b1 g1 order1 .rejected
        (some reason) nowMs
      ({ order := order1, trades := [], events := [rejectionEvent] }, b2, g2)
  | Option.none =>
    if order.timeInForce = .FOK ∧ ¬ hasEnoughLiquidity b1 order then
      let order1 := { order with status := .rejected }
      let (rejectionEvent, b2, g2) := createOrderEvent b1 g1 order1 .rejected
        (some "insufficient_liquidity_for_fok") nowMs
      ({ order := order1, trades := [], events := [rejectionEvent] }, b2, g2)
    else
      let (g2, b2, order2, resultTrades, resultEvents) :=
        matchIncomingOrder b1 g1 order nowMs
      if order2.remainingQuantity > 0 then
        if order2.kind = .limit ∧ order2.timeInForce = .GTC then
          let order3 := prepareOrderForBook order2
          let status : OrderStatus :=
            if order3.remainingQuantity = order3.originalQuantity then .new
            else .partiallyFilled
          let order4 := { order3 with status := status }
          let b3 := addOrderToBook b2 order4
          let (restingEvent, b4, g3) := createOrderEvent b3 g2 order4 status
            Option.none nowMs
          ({ order := order4, trades := resultTrades,
             events := resultEvents ++ [restingEvent] }, b4, g3)
        else
          let order3 := { order2 with status := .expired }
          let reason :=
            if order2.kind = .market then "market_order_unfilled_remainder"
            else "time_in_force_unfilled_remainder"
          let (expiredEvent, b3, g3) := createOrderEvent b2 g2 order3 .expired
            (some reason) nowMs
          ({ order := order3, trades := resultTrades,
             events := resultEvents ++ [expiredEvent] }, b3, g3)
      else
        let order3 := { order2 with status := .filled }
        let (fillEvent, b3, g3) := createOrderEvent b2 g2 order3 .filled
          Option.none nowMs
        ({ order := order3, trades := resultTrades,
           events := resultEvents ++ [fillEvent] }, b3, g3)

/-- The `userId && orderReference.node.order.userId !== userId` guard of
`cancelOrder` (an empty or absent caller user id skips the check). -/
def userMismatch (userId : Option String) (o : BookOrder) : Bool :=
  match userId with
  | some u => u ≠ "" && o.userId ≠ u
  | Option.none => false

/-- `cancelOrder(orderId, userId?, nowMs)`.  The two inner `Option.none`
fallbacks are unreachable in book states the operations produce: an
`ordersById` reference always resolves to a live level and node. -/
def cancelOrder (b : Book) (g : IdGen) (orderId : String)
    (userId : Option String) (nowMs : ℕ) : CancelOrderResult × Book × IdGen :=
  match mapGet b.ordersById orderId with
  | Option.none =>
      ({ canceled := false, order := Option.none,
         reason := some "order_not_found", event := Option.none }, b, g)
  | some ref =>
    match SideIndex.get (indexForSide b ref.side)
        (toInternalPrice ref.side ref.price) with
    | Option.none =>
        ({ canceled := false, order := Option.none,
           reason := some "order_not_found", event := Option.none }, b, g)
    | some lvl =>
      match lvl.queue.find? (fun n => n.nodeId = ref.nodeId) with
      | Option.none =>
          ({ canceled := false, order := Option.none,
             reason := some "order_not_found", event := Option.none }, b, g)
      | some node =>
        if userMismatch userId node.order then
          ({ canceled := false, order := Option.none,
             reason := some "user_mismatch", event := Option.none }, b, g)
        else
          let lvl' := lvl.remove node
          let b1 := setLevel b ref.side lvl.price lvl'
          let b2 := { b1 with ordersById := mapDel b1.ordersById orderId }
          let b3 :=
            if lvl'.isEmpty then removeLevel b2 ref.side lvl'.price else b2
          let order' := { node.order with
                          status := .canceled
                          updatedAtMs := nowMs }
          let (cancelEvent, b4, g') := createOrderEvent b3 g order' .canceled
            (some "canceled_by_user") nowMs
          ({ canceled := true, order := some order',
             reason := Option.none, event := some cancelEvent }, b4, g')

end Book

end HyperEvm

namespace HyperEvm

/-! ## Command log (logging/command-log.ts) -/

/-- `entryType` of a command-log line. -/
inductive CommandLogEntryType where
  | commandEntry
  | eventEntry
deriving DecidableEq, Repr

/-- One line of the JSONL command-log file as `readCommands` sees it:
whitespace-only (skipped before parsing), a well-formed entry with its
`entryType` and payload, or a line on which `JSON.parse` throws. -/
inductive CommandLogLine (α : Type) where
  | blank
  | entry (entryType : CommandLogEntryType) (payload : α)
  | corrupt
deriving DecidableEq, Repr

/-- The `for` loop inside `readCommands`: skip blank lines, parse the
rest, collect `command` payloads; `Option.none` models the `JSON.parse`
exception escaping the loop. -/
def readCommandsLoop {α : Type} :
    List (CommandLogLine α) → List α → Option (List α)
  | [], acc => some acc
  | .blank :: rest, acc => readCommandsLoop rest acc
  | .entry .commandEntry p :: rest, acc => readCommandsLoop rest (acc ++ [p])
  | .entry .eventEntry _ :: rest, acc => readCommandsLoop rest acc
  | .corrupt :: _, _ => Option.none

/-- `readCommands()`.  `Option.none` as input models a missing file
(`readFile` throws).  The `try`/`catch` wraps the whole parse loop, so
both a missing file and a `JSON.parse` exception make the `catch` return
the empty list. -/
def readCommands {α : Type} : Option (List (CommandLogLine α)) → List α
  | Option.none => []
  | some lines => (readCommandsLoop lines []).getD []

/-- Modelled from the spec (§4.6/§6): `read_commands()` as the spec
describes it — "Corrupted or partial lines are ignored on read", so the
commands on the remaining well-formed lines are still returned, in file
order; a missing file yields an empty list. -/
def readCommandsSpec {α : Type} : Option (List (CommandLogLine α)) → List α
  | Option.none => []
  | some lines => lines.filterMap fun line =>
      match line with
      | .entry .commandEntry p => some p
      | _ => Option.none

/-! ## Seeded PRNG (utils/prng.ts) -/

/-- `XorShift32`: state is the 32-bit unsigned residue. -/
structure XorShift32 where
  state : ℕ
deriving DecidableEq, Repr

namespace XorShift32

/-- `new XorShift32(seed)`: `seed >>> 0`, with 0 replaced by `0x6d2b79f5`. -/
def init (seed : ℕ) : XorShift32 :=
  let s := seed % 2 ^ 32
  { state := if s = 0 then 0x6d2b79f5 else s }

/-- `nextUint32()`: `x ^= x << 13; x ^= x >>> 17; x ^= x << 5` on 32-bit
values (`<<` truncates to 32 bits, `>>>` shifts the unsigned pattern). -/
def nextUint32 (r : XorShift32) : ℕ × XorShift32 :=
  let x0 := r.state
  let x1 := (Nat.xor x0 (x0 * 2 ^ 13)) % 2 ^ 32
  let x2 := Nat.xor x1 (x1 / 2 ^ 17)
  let x3 := (Nat.xor x2 (x2 * 2 ^ 5)) % 2 ^ 32
  (x3, { state := x3 })

/-- `nextFloat()`: `nextUint32() / 0xffffffff`, exact in `ℚ`. -/
def nextFloat (r : XorShift32) : ℚ × XorShift32 :=
  let (u, r') := r.nextUint32
  ((u : ℚ) / 4294967295, r')

end XorShift32

/-! ## Virtual mempool (bridge/virtual-mempool.ts) -/

/-- Transaction status. -/
inductive TxStatus where
  | pending
  | included
  | confirmed
  | failed
deriving DecidableEq, Repr

/-- `VirtualTransaction` (payload, result and the anvil hash are opaque to
the inclusion/confirmation logic and omitted; `futureResolved` models
`tx.resolve` having been called). -/
structure VirtualTransaction where
  txId : String
  status : TxStatus
  submittedAtMs : ℕ
  includedBlockNumber : Option ℕ
  confirmedBlockNumber : Option ℕ
  gasPrice : ℕ
  maxPriorityFeePerGas : ℕ
  requiredConfirmations : ℕ
  failedError : Option String
  futureResolved : Bool
deriving DecidableEq, Repr

/-- `MempoolConfig` (types/config.ts), the fields the tick uses. -/
structure MempoolConfig where
  blockIntervalMs : ℕ
  maxTransactionsPerBlock : ℕ
  defaultConfirmations : ℕ
  confirmationProbabilityPerBlock : ℚ
deriving DecidableEq, Repr

namespace VirtualMempool

/-- Effective gas: `gasPrice + maxPriorityFeePerGas`, the exact `bigint`
sum (never narrowed to a float). -/
def effectiveGas (tx : VirtualTransaction) : ℕ :=
  tx.gasPrice + tx.maxPriorityFeePerGas

/-- The comparator passed to `pendingTxIds.sort(...)` as an `a`-may-come-
before-`b` relation: strictly higher effective gas first; on equal
effective gas, earlier `submittedAtMs` first.  `Array.prototype.sort` is
stable, as is `List.mergeSort`. -/
def includeLE (a b : VirtualTransaction) : Bool :=
  effectiveGas b < effectiveGas a ||
    (effectiveGas a = effectiveGas b && a.submittedAtMs ≤ b.submittedAtMs)

/-- The per-transaction part of the include phase after the splice:
transition to `included`, stamp `includedBlockNumber`, then execute the
payload through the engine; an executor exception turns the transaction
`failed` with the stringified error (`execFails` abstracts the executor
outcome). -/
def markIncluded (blockNumber : ℕ)
    (execFails : VirtualTransaction → Option String)
    (tx : VirtualTransaction) : VirtualTransaction :=
  let tx1 := { tx with
    status := .included
    includedBlockNumber := some blockNumber }
  match execFails tx1 with
  | some err => { tx1 with status := .failed, failedError := some err }
  | Option.none => tx1

/-- `includePendingTransactions()`: sort the pending queue by the
comparator, splice off the top `min(pending.length,
maxTransactionsPerBlock)`, include and execute them in that order.
Returns the processed transactions (in inclusion order) and the
still-pending remainder. -/
def includePhase (cfg : MempoolConfig) (blockNumber : ℕ)
    (pending : List VirtualTransaction)
    (execFails : VirtualTransaction → Option String) :
    List VirtualTransaction × List VirtualTransaction :=
  let sorted := pending.mergeSort includeLE
  let includeCount := min sorted.length cfg.maxTransactionsPerBlock
  ((sorted.take includeCount).map (markIncluded blockNumber execFails),
    sorted.drop includeCount)

/-- The body of the confirm-phase loop for one transaction: skip anything
that is not `included` (in particular `failed` transactions); leave it
when `elapsed = blockNumber − includedBlockNumber + 1` is below
`requiredConfirmations` (no PRNG draw); otherwise draw, and confirm when
the draw is at or below `confirmationProbabilityPerBlock` or the
forced-confirmation floor `elapsed ≥ requiredConfirmations + 5` is hit,
stamping `confirmedBlockNumber` and resolving the future. -/
def confirmStep (cfg : MempoolConfig) (blockNumber : ℕ) (rng : XorShift32)
    (tx : VirtualTransaction) : XorShift32 × VirtualTransaction :=
  if tx.status ≠ .included then (rng, tx)
  else
    match tx.includedBlockNumber with
    | Option.none => (rng, tx)
    | some ib =>
        let elapsedBlocks : ℤ := (blockNumber : ℤ) - (ib : ℤ) + 1
        if elapsedBlocks < tx.requiredConfirmations then (rng, tx)
        else
          let (draw, rng') := rng.nextFloat
          if draw ≤ cfg.confirmationProbabilityPerBlock ∨
              elapsedBlocks ≥ tx.requiredConfirmations + 5 then
            (rng', { tx with
              status := .confirmed
              confirmedBlockNumber := some blockNumber
              futureResolved := true })
          else (rng', tx)

/-- `confirmIncludedTransactions()`: every transaction in map insertion
order, threading the seeded PRNG. -/
def confirmWalk (cfg : MempoolConfig) (blockNumber : ℕ) :
    XorShift32 → List VirtualTransaction →
    XorShift32 × List VirtualTransaction
  | rng, [] => (rng, [])
  | rng, tx :: rest =>
      let (rng1, tx') := confirmStep cfg blockNumber rng tx
      let (rng2, rest') := confirmWalk cfg blockNumber rng1 rest
      (rng2, tx' :: rest')

end VirtualMempool

end HyperEvm

namespace HyperEvm

/-! ## Matching engine (engine/matching-engine.ts) -/

/-- `EngineConfig` (the fields the engine reads). -/
structure EngineConfig where
  symbols : List String
  tickSize : ℚ
  lotSize : ℚ
  minOrderQuantity : ℚ
  maxOrderBookDepth : ℕ
deriving DecidableEq, Repr

/-- Payload of a `cancel_order` command. -/
structure CancelOrderPayload where
  orderId : String
  userId : Option String
  symbol : Option String
deriving DecidableEq, Repr

/-- `EngineCommand` (types/engine.ts): a `submit_order` or `cancel_order`
command with its `commandId` and `timestampMs`. -/
inductive EngineCommand where
  | submitOrderCmd (commandId : String) (timestampMs : ℕ)
      (payload : OrderRequest)
  | cancelOrderCmd (commandId : String) (timestampMs : ℕ)
      (payload : CancelOrderPayload)
deriving DecidableEq, Repr

/-- In-memory image of what the engine appends to the command log: one
`command` entry per persisted command, one `event` entry per applied
command (the event record carries `commandId` and the result; only the
entry type and the command payloads matter to `readCommands`). -/
inductive EngineLogEntry where
  | commandRecord (timestampMs : ℕ) (c : EngineCommand)
  | eventRecord (timestampMs : ℕ) (commandId : String)
deriving DecidableEq, Repr

/-- `MatchingEngine` state (fan-out emits, metrics sink and the latency
ring do not feed back into engine state and are omitted). -/
structure Engine where
  config : EngineConfig
  randomSeed : ℕ
  books : List (String × Book)
  orderToSymbol : List (String × String)
  gen : IdGen
  log : List EngineLogEntry
  totalOrdersSubmitted : ℕ
  totalOrdersCanceled : ℕ
  totalTradesExecuted : ℕ
  rejectedOrders : ℕ
  expiredOrders : ℕ

namespace Engine

/-- The engine constructor: one book per configured symbol, seeded
`randomSeed + index`. -/
def init (config : EngineConfig) (randomSeed : ℕ) (g : IdGen) : Engine :=
  { config := config
    randomSeed := randomSeed
    books := config.symbols.enum.map fun e =>
      (e.2, Book.init e.2
        { tickSize := config.tickSize, lotSize := config.lotSize,
          minOrderQuantity := config.minOrderQuantity,
          maxDepth := config.maxOrderBookDepth, seed := randomSeed + e.1 })
    orderToSymbol := []
    gen := g
    log := []
    totalOrdersSubmitted := 0
    totalOrdersCanceled := 0
    totalTradesExecuted := 0
    rejectedOrders := 0
    expiredOrders := 0 }

/-- `applySubmitOrder(command, persistCommand)`.  `Option.none` as first
component models the `Unsupported symbol` exception from `getBook`
(thrown after the command was persisted). -/
def applySubmitOrder (e : Engine) (commandId : String) (timestampMs : ℕ)
    (request : OrderRequest) (persistCommand : Bool) :
    Option SubmitOrderResult × Engine :=
  let e1 :=
    if persistCommand then
      { e with log := e.log ++
          [EngineLogEntry.commandRecord timestampMs
            (EngineCommand.submitOrderCmd commandId timestampMs request)] }
    else e
  match mapGet e1.books request.symbol with
  | Option.none => (Option.none, e1)
  | some book =>
      let (result, book', gen') :=
        Book.submitOrder book e1.gen request timestampMs
      let e2 := { e1 with
        books := mapSet e1.books request.symbol book'
        gen := gen'
        totalOrdersSubmitted := e1.totalOrdersSubmitted + 1
        totalTradesExecuted := e1.totalTradesExecuted + result.trades.length
        rejectedOrders := e1.rejectedOrders +
          (if result.order.status = OrderStatus.rejected then 1 else 0)
        expiredOrders := e1.expiredOrders +
          (if result.order.status = OrderStatus.expired then 1 else 0) }
      let ots1 :=
        if result.order.remainingQuantity > 0 ∧
            result.order.kind = OrderKind.limit ∧
            result.order.timeInForce = TimeInForce.GTC then
          mapSet e2.orderToSymbol result.order.id result.order.symbol
        else mapDel e2.orderToSymbol result.order.id
      let ots2 := result.events.foldl
        (fun acc ev =>
          if ev.status = OrderStatus.filled ∨ ev.status = OrderStatus.canceled ∨
              ev.status = OrderStatus.expired then
            mapDel acc ev.orderId
          else acc)
        ots1
      (some result,
        { e2 with
            orderToSymbol := ots2
            log := e2.log ++ [EngineLogEntry.eventRecord timestampMs commandId] })

/-- `applyCancelOrder(command, persistCommand)`. -/
def applyCancelOrder (e : Engine) (commandId : String) (timestampMs : ℕ)
    (payload : CancelOrderPayload) (persistCommand : Bool) :
    Option CancelOrderResult × Engine :=
  let e1 :=
    if persistCommand then
      { e with log := e.log ++
          [EngineLogEntry.commandRecord timestampMs
            (EngineCommand.cancelOrderCmd commandId timestampMs payload)] }
    else e
  let targetSymbol :=
    match payload.symbol with
    | some s => some s
    | Option.none => mapGet e1.orderToSymbol payload.orderId
  match targetSymbol with
  | Option.none =>
      (some { canceled := false, order := Option.none,
              reason := some "order_symbol_not_found",
              event := Option.none }, e1)
  | some sym =>
    match mapGet e1.books sym with
    | Option.none => (Option.none, e1)
    | some book =>
        let (result, book', gen') :=
          Book.cancelOrder book e1.gen payload.orderId payload.userId
            timestampMs
        let e2 := { e1 with
          books := mapSet e1.books sym book'
          gen := gen' }
        let e3 :=
          if result.canceled then
            { e2 with
                totalOrdersCanceled := e2.totalOrdersCanceled + 1
                orderToSymbol := mapDel e2.orderToSymbol payload.orderId }
          else e2
        (some result,
          { e3 with log := e3.log ++ [EngineLogEntry.eventRecord timestampMs commandId] })

/-- Live `submitOrder(request)`: build a `submit_order` command with a
fresh `commandId` and the current time, persist it, apply it. -/
def submitOrder (e : Engine) (request : OrderRequest) (nowMs : ℕ) :
    Option SubmitOrderResult × Engine :=
  let (cid, g1) := buildId e.gen "cmd"
  applySubmitOrder { e with gen := g1 } cid nowMs request true

/-- Live `cancelOrder(orderId, userId?, symbol?)`. -/
def cancelOrder (e : Engine) (orderId : String)
    (userId symbol : Option String) (nowMs : ℕ) :
    Option CancelOrderResult × Engine :=
  let (cid, g1) := buildId e.gen "cmd"
  applyCancelOrder { e with gen := g1 } cid nowMs
    { orderId := orderId, userId := userId, symbol := symbol } true

/-- The command entries of a log, in file order (what `readCommands`
returns for the file this engine wrote). -/
def commandsOfLog (log : List EngineLogEntry) : List EngineCommand :=
  log.filterMap fun entry =>
    match entry with
    | .commandRecord _ c => some c
    | .eventRecord _ _ => Option.none

/-- One iteration of the replay loop: re-apply without persisting; a
command that throws is counted as skipped and does not halt replay. -/
def replayStep (acc : Engine × ℕ × ℕ) (c : EngineCommand) : Engine × ℕ × ℕ :=
  match c with
  | .submitOrderCmd cid ts req =>
      match applySubmitOrder acc.1 cid ts req false with
      | (some _, e') => (e', acc.2.1 + 1, acc.2.2)
      | (Option.none, e') => (e', acc.2.1, acc.2.2 + 1)
  | .cancelOrderCmd cid ts payload =>
      match applyCancelOrder acc.1 cid ts payload false with
      | (some _, e') => (e', acc.2.1 + 1, acc.2.2)
      | (Option.none, e') => (e', acc.2.1, acc.2.2 + 1)

/-- `replayFromCommandLog()`: apply the given command list (the commands
read back from the log) in order; returns the engine and
`(appliedCommands, skippedCommands)`. -/
def replayFromCommandLog (e : Engine) (commands : List EngineCommand) :
    Engine × ℕ × ℕ :=
  commands.foldl replayStep (e, 0, 0)

/-- `getDepth(symbol, depth?)`; `Option.none` models the unknown-symbol
typed error. -/
def getDepth (e : Engine) (symbol : String)
    (depth : Option ℕ := Option.none) :
    Option (List DepthLevel × List DepthLevel) :=
  (mapGet e.books symbol).map fun b => Book.getDepth b depth

end Engine

/-- One externally driven engine operation for a live run. -/
inductive EngineOp where
  | submit (request : OrderRequest) (nowMs : ℕ)
  | cancel (orderId : String) (userId symbol : Option String) (nowMs : ℕ)
deriving Repr

/-- Run a list of operations against a live engine. -/
def Engine.runOp (e : Engine) : EngineOp → Engine
  | .submit request nowMs => (Engine.submitOrder e request nowMs).2
  | .cancel orderId userId symbol nowMs =>
      (Engine.cancelOrder e orderId userId symbol nowMs).2

/-- A live session: apply the operations in order. -/
def Engine.runOps (e : Engine) (ops : List EngineOp) : Engine :=
  ops.foldl Engine.runOp e

end HyperEvm

namespace HyperEvm

/-! ## Sample data used by witnesses and counterexamples -/

/-- A deterministic id stream for concrete runs. -/
def sampleGen : IdGen := { stream := fun n => toString n, pos := 0 }

/-- A second, disjoint id stream (a different process run of
`crypto.randomUUID`). -/
def sampleGenB : IdGen := { stream := fun n => "b" ++ toString n, pos := 0 }

/-- Options used by the repository's own order-book tests. -/
def sampleOpts : OrderBookOptions :=
  { tickSize := 1, lotSize := 1, minOrderQuantity := 1, maxDepth := 200,
    seed := 123 }

/-- An empty ETH-USD book. -/
def sampleBook : Book := Book.init "ETH-USD" sampleOpts

/-- A plain limit/market request builder for concrete runs. -/
def sampleReq (id : String) (user : String) (side : Side) (kind : OrderKind)
    (qty : ℚ) (price : Option ℚ) (tif : Option TimeInForce) : OrderRequest :=
  { id := some id, clientOrderId := Option.none, symbol := "ETH-USD",
    userId := user, side := side, kind := kind, quantity := qty,
    price := price, timeInForce := tif, minQuantity := Option.none,
    icebergDisplayQuantity := Option.none,
    selfTradePrevention := Option.none }

/-- A sample cancel command payload (used as command-log file content). -/
def sampleCommand : EngineCommand :=
  EngineCommand.cancelOrderCmd "cmd_1" 5
    { orderId := "ord_1", userId := Option.none, symbol := some "ETH-USD" }

/-! ## C6 -/

/-- C6: `read_commands` is claimed to ignore a corrupted or partial line
and still return the commands on the remaining well-formed lines.  The
code's `try`/`catch` wraps the entire parse loop, so the first corrupt
line aborts the loop and the `catch` returns the empty list: a file
holding one well-formed `command` entry followed by one corrupt line
yields `[]`, not that command — while the spec-modelled reader returns
the command.  (The parts of the claim that do hold: a missing file yields
`[]`, and the read itself never throws, so replay is not aborted.) -/
theorem c6_corrupt_line_drops_well_formed_commands :
    readCommands
        (some [CommandLogLine.entry .commandEntry sampleCommand,
               CommandLogLine.corrupt]) = [] ∧
    readCommandsSpec
        (some [CommandLogLine.entry .commandEntry sampleCommand,
               CommandLogLine.corrupt]) = [sampleCommand] ∧
    readCommands (Option.none : Option (List (CommandLogLine EngineCommand)))
        = [] ∧
    readCommands
        (some [CommandLogLine.entry .commandEntry sampleCommand,
               CommandLogLine.blank,
               CommandLogLine.entry .eventEntry sampleCommand]) =
      [sampleCommand] := by
  refine ⟨rfl, rfl, rfl, rfl⟩

/-! ## C10 -/

/-- C10: a failed `cancel_order` (order not found, or user mismatch)
leaves the book state entirely unchanged — same side indices, orders,
price levels, event ring and sequence counter — and draws no id. -/
theorem c10_failed_cancel_leaves_book_unchanged (b : Book) (g : IdGen)
    (orderId : String) (userId : Option String) (nowMs : ℕ)
    (h : (Book.cancelOrder b g orderId userId nowMs).1.canceled = false) :
    (Book.cancelOrder b g orderId userId nowMs).2.1 = b ∧
    (Book.cancelOrder b g orderId userId nowMs).2.2 = g ∧
    ((Book.cancelOrder b g orderId userId nowMs).1.reason =
        some "order_not_found" ∨
      (Book.cancelOrder b g orderId userId nowMs).1.reason =
        some "user_mismatch") ∧
    (Book.cancelOrder b g orderId userId nowMs).1.event = Option.none := by
  unfold Book.cancelOrder at h ⊢
  rcases href : mapGet b.ordersById orderId with _ | ref
  · simp [href]
  · rcases hlvl : SideIndex.get (Book.indexForSide b ref.side)
        (Book.toInternalPrice ref.side ref.price) with _ | lvl
    · simp [href, hlvl]
    · rcases hnode : lvl.queue.find? (fun n => n.nodeId = ref.nodeId)
          with _ | node
      · simp [href, hlvl, hnode]
      · simp only [href, hlvl, hnode] at h ⊢
        by_cases hm : Book.userMismatch userId node.order = true
        · rw [if_pos hm]
          exact ⟨rfl, rfl, Or.inr rfl, rfl⟩
        · rw [if_neg hm] at h
          simp at h

/-- Witness for C10 at a concrete input: cancelling an unknown id on an
empty book fails and changes nothing. -/
theorem c10_witness :
    (Book.cancelOrder sampleBook sampleGen "nope" Option.none 5).1.canceled
        = false ∧
    (Book.cancelOrder sampleBook sampleGen "nope" Option.none 5).2.1 =
      sampleBook := by
  exact ⟨by decide,
    (c10_failed_cancel_leaves_book_unchanged sampleBook sampleGen "nope"
      Option.none 5 (by decide)).1⟩

end HyperEvm

namespace HyperEvm

/-! ## C9 -/

/-- C9: a submission that fails validation is returned `REJECTED` with
the first failing check's reason, exactly one event (carrying that
reason) and no trades, and it leaves the side indices, the resting-order
map, bid/ask depth and the active order count unchanged. -/
theorem c9_validation_rejection (b : Book) (g : IdGen)
    (request : OrderRequest) (nowMs : ℕ) (reason : String)
    (h : Book.validateRequest b request = some reason) :
    (Book.submitOrder b g request nowMs).1.order.status = .rejected ∧
    (Book.submitOrder b g request nowMs).1.trades = [] ∧
    (∃ ev, (Book.submitOrder b g request nowMs).1.events = [ev] ∧
      ev.status = .rejected ∧ ev.reason = some reason ∧
      ev.orderId = (Book.submitOrder b g request nowMs).1.order.id) ∧
    (Book.submitOrder b g request nowMs).2.1.bids = b.bids ∧
    (Book.submitOrder b g request nowMs).2.1.asks = b.asks ∧
    (Book.submitOrder b g request nowMs).2.1.ordersById = b.ordersById ∧
    (∀ d, Book.getDepth (Book.submitOrder b g request nowMs).2.1 d =
      Book.getDepth b d) ∧
    Book.getActiveOrderCount (Book.submitOrder b g request nowMs).2.1 =
      Book.getActiveOrderCount b := by
  unfold Book.submitOrder
  rw [h]
  exact ⟨rfl, rfl, ⟨_, rfl, rfl, rfl, rfl⟩, rfl, rfl, rfl, fun d => rfl, rfl⟩

/-- A request with quantity `0` (fails the `invalid_quantity` check). -/
def zeroQuantityReq : OrderRequest :=
  sampleReq "bad" "u1" .buy .limit 0 (some 100) Option.none

/-- Witness for C9: submitting quantity `0` is rejected with
`invalid_quantity` and exactly one event. -/
theorem c9_witness :
    Book.validateRequest sampleBook zeroQuantityReq = some "invalid_quantity" ∧
    (Book.submitOrder sampleBook sampleGen zeroQuantityReq 7).1.order.status
      = .rejected := by
  exact ⟨by decide,
    (c9_validation_rejection sampleBook sampleGen zeroQuantityReq 7
      "invalid_quantity" (by decide)).1⟩

/-! ## C2 -/

/-- A book with one resting sell, 5 at 101, by `mu`. -/
def oneMakerBook : Book :=
  (Book.submitOrder sampleBook sampleGen
    (sampleReq "m" "mu" .sell .limit 5 (some 101) Option.none) 1).2.1

/-- The id stream state after placing the resting maker. -/
def oneMakerGen : IdGen :=
  (Book.submitOrder sampleBook sampleGen
    (sampleReq "m" "mu" .sell .limit 5 (some 101) Option.none) 1).2.2

/-- The result of a buy IOC for the full resting quantity against
`oneMakerBook` (the maker is completely filled). -/
def fullFillResult : SubmitOrderResult :=
  (Book.submitOrder oneMakerBook oneMakerGen
    (sampleReq "t" "tu" .buy .limit 5 (some 101) (some .IOC)) 2).1

attribute [local semireducible] Rat.sub Rat.add Rat.mul Rat.inv
  Rat.ofScientific in
/-- C2 counterexample: when the taker fully fills a resting maker, the
maker's `FILLED` event is pushed into `events` during the matching loop,
before the taker's own terminal event — so the FIRST element of `events`
is an event for the maker (order `m`), not for the submitted order `t`. -/
theorem c2_counterexample :
    fullFillResult.events.head?.map (fun e => e.orderId) = some "m" ∧
    fullFillResult.order.id = "t" ∧
    ¬ ∀ ev ∈ fullFillResult.events.head?,
        ev.orderId = fullFillResult.order.id := by
  decide

/-- C2 amended: it is the LAST element of the returned `events` array
that is always an event for the submitted order itself, carrying the
order's terminal status for this submission or its `NEW` /
`PARTIALLY_FILLED` resting status (`submitOrder` appends exactly one
event for the submitted order after the matching loop, in every branch). -/
theorem c2_last_event_reflects_order_status (b : Book) (g : IdGen)
    (request : OrderRequest) (nowMs : ℕ) :
    ∃ ev, (Book.submitOrder b g request nowMs).1.events.getLast? = some ev ∧
      ev.orderId = (Book.submitOrder b g request nowMs).1.order.id ∧
      ev.status = (Book.submitOrder b g request nowMs).1.order.status ∧
      ev.remainingQuantity =
        (Book.submitOrder b g request nowMs).1.order.remainingQuantity := by
  unfold Book.submitOrder
  rcases hv : Book.validateRequest b request with _ | reason
  · simp only [hv]
    rcases hM : Book.matchIncomingOrder ({ b with sequence := b.sequence + 1 })
        (Book.createOrder b g request nowMs).2.2
        (Book.createOrder b g request nowMs).1 nowMs
      with ⟨g2, b2, order2, resultTrades, resultEvents⟩
    by_cases hFok : ((Book.createOrder b g request nowMs).1.timeInForce
        = TimeInForce.FOK ∧
        ¬ Book.hasEnoughLiquidity (Book.createOrder b g request nowMs).2.1
          (Book.createOrder b g request nowMs).1)
    · simp only [Book.createOrder, Book.createOrderEvent] at hFok ⊢
      rw [if_pos hFok]
      exact ⟨_, rfl, rfl, rfl, rfl⟩
    · simp only [Book.createOrder, Book.createOrderEvent] at hFok hM ⊢
      rw [if_neg hFok]
      simp only [hM]
      by_cases hrem : order2.remainingQuantity > 0
      · rw [if_pos hrem]
        by_cases hgtc : (order2.kind = OrderKind.limit ∧
            order2.timeInForce = TimeInForce.GTC)
        · rw [if_pos hgtc]
          exact ⟨_, List.getLast?_concat _, rfl, rfl, rfl⟩
        · rw [if_neg hgtc]
          exact ⟨_, List.getLast?_concat _, rfl, rfl, rfl⟩
      · rw [if_neg hrem]
        exact ⟨_, List.getLast?_concat _, rfl, rfl, rfl⟩
  · simp only [hv, Book.createOrder, Book.createOrderEvent]
    exact ⟨_, rfl, rfl, rfl, rfl⟩

end HyperEvm

namespace HyperEvm

/-! ## C1 -/

/-- A book where user `u` has a resting sell of 5 at 101. -/
def selfMakerBook : Book :=
  (Book.submitOrder sampleBook sampleGen
    (sampleReq "m" "u" .sell .limit 5 (some 101) Option.none) 1).2.1

/-- The id stream state after placing that resting sell. -/
def selfMakerGen : IdGen :=
  (Book.submitOrder sampleBook sampleGen
    (sampleReq "m" "u" .sell .limit 5 (some 101) Option.none) 1).2.2

/-- User `u` crossing their own resting sell with STP `cancel_newest`. -/
def stpNewestResult : SubmitOrderResult :=
  (Book.submitOrder selfMakerBook selfMakerGen
    { sampleReq "t" "u" .buy .limit 5 (some 101) (some .IOC) with
        selfTradePrevention := some .cancelNewest } 2).1

attribute [local semireducible] Rat.sub Rat.add Rat.mul Rat.inv
  Rat.ofScientific in
/-- C1 (failing input): `cancel_newest` against an own resting maker at
the best crossing level creates no trade and stops matching, and a
`CANCELED` event with reason `self_trade_prevention_cancel_newest` is
emitted — but the loop stops by zeroing the taker's `remainingQuantity`,
so the terminal handling in `submitOrder` falls into the
`remainingQuantity === 0` branch and overwrites the taker's status: the
returned order has status `FILLED` (with a second, `FILLED`, event),
not `CANCELED` as the spec requires.  The resting maker is untouched. -/
theorem c1_cancel_newest_taker_returned_filled :
    stpNewestResult.trades = [] ∧
    stpNewestResult.events.map (fun e => (e.orderId, e.status, e.reason)) =
      [("t", OrderStatus.canceled, some "self_trade_prevention_cancel_newest"),
       ("t", OrderStatus.filled, Option.none)] ∧
    stpNewestResult.order.status = .filled ∧
    stpNewestResult.order.status ≠ .canceled ∧
    stpNewestResult.order.remainingQuantity = 0 := by
  decide

end HyperEvm

namespace HyperEvm

namespace VirtualMempool

/-- The include comparator is transitive. -/
theorem includeLE_trans (a b c : VirtualTransaction) :
    includeLE a b = true → includeLE b c = true → includeLE a c = true := by
  simp only [includeLE, Bool.or_eq_true, Bool.and_eq_true, decide_eq_true_eq]
  omega

/-- The include comparator is total. -/
theorem includeLE_total (a b : VirtualTransaction) :
    (includeLE a b || includeLE b a) = true := by
  simp only [includeLE, Bool.or_eq_true, Bool.and_eq_true, decide_eq_true_eq]
  omega

/-- `markIncluded` never changes the gas fields. -/
theorem effectiveGas_markIncluded (n : ℕ)
    (f : VirtualTransaction → Option String) (tx : VirtualTransaction) :
    effectiveGas (markIncluded n f tx) = effectiveGas tx := by
  simp only [markIncluded]
  split <;> rfl

/-- `markIncluded` never changes the submission time. -/
theorem submittedAtMs_markIncluded (n : ℕ)
    (f : VirtualTransaction → Option String) (tx : VirtualTransaction) :
    (markIncluded n f tx).submittedAtMs = tx.submittedAtMs := by
  simp only [markIncluded]
  split <;> rfl

end VirtualMempool

/-! ## C7 -/

/-- C7: in every mempool tick, the transactions moved from `pending` to
`included` are exactly the top `min(pending count,
max_transactions_per_block)` of the pending queue under the order
"effective gas (= exact `bigint` sum `gas_price +
max_priority_fee_per_gas`) descending, ties by ascending
`submitted_at_ms`", they are included in that order (so effective gas is
non-increasing along the inclusion sequence), every taken transaction
dominates every transaction left pending, and taken plus left-pending is
a permutation of the original queue. -/
theorem c7_include_phase_top_by_effective_gas (cfg : MempoolConfig)
    (blockNumber : ℕ) (pending : List VirtualTransaction)
    (execFails : VirtualTransaction → Option String) :
    (VirtualMempool.includePhase cfg blockNumber pending execFails).1 =
      ((pending.mergeSort VirtualMempool.includeLE).take
          (min pending.length cfg.maxTransactionsPerBlock)).map
        (VirtualMempool.markIncluded blockNumber execFails) ∧
    (VirtualMempool.includePhase cfg blockNumber pending execFails).1.length
      = min pending.length cfg.maxTransactionsPerBlock ∧
    List.Perm
      ((pending.mergeSort VirtualMempool.includeLE).take
          (min pending.length cfg.maxTransactionsPerBlock) ++
        (VirtualMempool.includePhase cfg blockNumber pending execFails).2)
      pending ∧
    (∀ x ∈ (pending.mergeSort VirtualMempool.includeLE).take
        (min pending.length cfg.maxTransactionsPerBlock),
      ∀ y ∈ (VirtualMempool.includePhase cfg blockNumber pending execFails).2,
        VirtualMempool.includeLE x y = true) ∧
    List.Pairwise
      (fun a b => VirtualMempool.effectiveGas b ≤ VirtualMempool.effectiveGas a ∧
        (VirtualMempool.effectiveGas a = VirtualMempool.effectiveGas b →
          a.submittedAtMs ≤ b.submittedAtMs))
      (VirtualMempool.includePhase cfg blockNumber pending execFails).1 ∧
    (∀ tx ∈ (VirtualMempool.includePhase cfg blockNumber pending execFails).1,
      tx.includedBlockNumber = some blockNumber) := by
  have hlen : (pending.mergeSort VirtualMempool.includeLE).length
      = pending.length := (List.mergeSort_perm pending _).length_eq
  have hsorted := List.sorted_mergeSort
    (fun a b c => VirtualMempool.includeLE_trans a b c)
    VirtualMempool.includeLE_total pending
  have hsplit := List.take_append_drop
    (min pending.length cfg.maxTransactionsPerBlock)
    (pending.mergeSort VirtualMempool.includeLE)
  have hpairs : List.Pairwise (fun a b => VirtualMempool.includeLE a b = true)
      ((pending.mergeSort VirtualMempool.includeLE).take
          (min pending.length cfg.maxTransactionsPerBlock) ++
        (pending.mergeSort VirtualMempool.includeLE).drop
          (min pending.length cfg.maxTransactionsPerBlock)) := by
    rw [hsplit]; exact hsorted
  rw [List.pairwise_append] at hpairs
  have hphase1 : (VirtualMempool.includePhase cfg blockNumber pending
      execFails).1 =
      ((pending.mergeSort VirtualMempool.includeLE).take
          (min pending.length cfg.maxTransactionsPerBlock)).map
        (VirtualMempool.markIncluded blockNumber execFails) := by
    simp [VirtualMempool.includePhase, hlen]
  have hphase2 : (VirtualMempool.includePhase cfg blockNumber pending
      execFails).2 =
      (pending.mergeSort VirtualMempool.includeLE).drop
        (min pending.length cfg.maxTransactionsPerBlock) := by
    simp [VirtualMempool.includePhase, hlen]
  refine ⟨hphase1, ?_, ?_, ?_, ?_, ?_⟩
  · rw [hphase1, List.length_map, List.length_take, hlen]
    omega
  · rw [hphase2, hsplit]
    exact List.mergeSort_perm pending _
  · intro x hx y hy
    rw [hphase2] at hy
    exact hpairs.2.2 x hx y hy
  · rw [hphase1, List.pairwise_map]
    refine hpairs.1.imp ?_
    intro a b hab
    simp only [VirtualMempool.effectiveGas_markIncluded,
      VirtualMempool.submittedAtMs_markIncluded]
    simp only [VirtualMempool.includeLE, Bool.or_eq_true, Bool.and_eq_true,
      decide_eq_true_eq] at hab
    omega
  · intro tx htx
    rw [hphase1] at htx
    rcases List.mem_map.mp htx with ⟨tx0, _, rfl⟩
    simp only [VirtualMempool.markIncluded]
    split <;> rfl

end HyperEvm

namespace HyperEvm

/-! ## C8 -/

/-- A transaction included at virtual block 1 with one required
confirmation. -/
def includedTx : VirtualTransaction :=
  { txId := "vm1", status := .included, submittedAtMs := 0,
    includedBlockNumber := some 1, confirmedBlockNumber := Option.none,
    gasPrice := 1000, maxPriorityFeePerGas := 0, requiredConfirmations := 1,
    failedError := Option.none, futureResolved := false }

/-- A mempool config whose confirmation probability equals exactly the
first draw of the default-seeded (`seed = 7`) PRNG. -/
def drawEqualCfg : MempoolConfig :=
  { blockIntervalMs := 100, maxTransactionsPerBlock := 10,
    defaultConfirmations := 1,
    confirmationProbabilityPerBlock := (XorShift32.init 7).nextFloat.1 }

/-- A mempool config with confirmation probability 1. -/
def alwaysConfirmCfg : MempoolConfig :=
  { blockIntervalMs := 100, maxTransactionsPerBlock := 10,
    defaultConfirmations := 1, confirmationProbabilityPerBlock := 1 }

attribute [local semireducible] Rat.sub Rat.add Rat.mul Rat.inv
  Rat.ofScientific in
/-- C8 counterexample: the code confirms on `nextFloat() <=
confirmation_probability_per_block`, not on a draw strictly *below* it.
With the probability set to exactly the value of the PRNG draw, the
transaction confirms in this tick although the draw is not below the
probability and the forced floor (`elapsed ≥ required + 5`) is not hit —
so "confirms iff the draw is below the probability or the floor is hit"
is false as stated. -/
theorem c8_counterexample :
    (VirtualMempool.confirmStep drawEqualCfg 1 (XorShift32.init 7)
        includedTx).2.status = .confirmed ∧
    ¬ ((XorShift32.init 7).nextFloat.1 <
        drawEqualCfg.confirmationProbabilityPerBlock) ∧
    ¬ ((1 : ℤ) - 1 + 1 ≥ includedTx.requiredConfirmations + 5) := by
  refine ⟨by decide, by decide, by decide⟩

/-- C8 amended ("below" reads "at or below"): in the confirm phase a
transaction that is not `included` (in particular a `failed` one) is left
untouched with no PRNG draw; an `included` one with `elapsed =
block_number − included_block_number + 1` below `required_confirmations`
is left untouched with no draw; otherwise the PRNG is drawn and the
transaction becomes `confirmed` in this tick iff the draw is at or below
`confirmation_probability_per_block` or `elapsed ≥
required_confirmations + 5`, and on confirmation `confirmed_block_number`
is stamped with the current block and its future resolves. -/
theorem c8_confirm_rule (cfg : MempoolConfig) (blockNumber : ℕ)
    (rng : XorShift32) (tx : VirtualTransaction) :
    (tx.status ≠ .included →
      VirtualMempool.confirmStep cfg blockNumber rng tx = (rng, tx)) ∧
    (∀ ib, tx.includedBlockNumber = some ib → tx.status = .included →
      ((blockNumber : ℤ) - ib + 1 < tx.requiredConfirmations →
        VirtualMempool.confirmStep cfg blockNumber rng tx = (rng, tx)) ∧
      ((blockNumber : ℤ) - ib + 1 ≥ tx.requiredConfirmations →
        ((VirtualMempool.confirmStep cfg blockNumber rng tx).2.status =
            .confirmed ↔
          (rng.nextFloat.1 ≤ cfg.confirmationProbabilityPerBlock ∨
            (blockNumber : ℤ) - ib + 1 ≥ tx.requiredConfirmations + 5)) ∧
        ((VirtualMempool.confirmStep cfg blockNumber rng tx).2.status =
            .confirmed →
          (VirtualMempool.confirmStep cfg blockNumber rng
              tx).2.confirmedBlockNumber = some blockNumber ∧
          (VirtualMempool.confirmStep cfg blockNumber rng
              tx).2.futureResolved = true) ∧
        ((VirtualMempool.confirmStep cfg blockNumber rng tx).2.status ≠
            .confirmed →
          (VirtualMempool.confirmStep cfg blockNumber rng tx).2 = tx) ∧
        (VirtualMempool.confirmStep cfg blockNumber rng tx).1 =
          rng.nextFloat.2)) := by
  constructor
  · intro hs
    unfold VirtualMempool.confirmStep
    rw [if_pos hs]
  · intro ib hib hst
    have hred : VirtualMempool.confirmStep cfg blockNumber rng tx =
        (if (blockNumber : ℤ) - (ib : ℤ) + 1 < tx.requiredConfirmations then
          (rng, tx)
        else
          if rng.nextFloat.1 ≤ cfg.confirmationProbabilityPerBlock ∨
              (blockNumber : ℤ) - (ib : ℤ) + 1 ≥
                tx.requiredConfirmations + 5 then
            (rng.nextFloat.2, { tx with
              status := .confirmed
              confirmedBlockNumber := some blockNumber
              futureResolved := true })
          else (rng.nextFloat.2, tx)) := by
      unfold VirtualMempool.confirmStep
      rw [if_neg (by simp [hst]), hib]
    constructor
    · intro hlt
      rw [hred, if_pos hlt]
    · intro hge
      rw [hred, if_neg (by omega)]
      by_cases hc : rng.nextFloat.1 ≤ cfg.confirmationProbabilityPerBlock ∨
          (blockNumber : ℤ) - (ib : ℤ) + 1 ≥ tx.requiredConfirmations + 5
      · rw [if_pos hc]
        exact ⟨⟨fun _ => hc, fun _ => rfl⟩, fun _ => ⟨rfl, rfl⟩,
          fun hne => absurd rfl hne, rfl⟩
      · rw [if_neg hc]
        refine ⟨⟨fun habs => absurd habs.symm ?_, fun hcc => absurd hcc hc⟩,
          fun habs => absurd habs.symm ?_, fun _ => rfl, rfl⟩
        · rw [hst]; simp
        · rw [hst]; simp
  
attribute [local semireducible] Rat.sub Rat.add Rat.mul Rat.inv
  Rat.ofScientific in
/-- Witness for C8 at a concrete input: with probability 1, the included
transaction (elapsed = required = 1) confirms in this tick and its
confirmation block is stamped. -/
theorem c8_witness :
    (VirtualMempool.confirmStep alwaysConfirmCfg 1 (XorShift32.init 7)
        includedTx).2.status = .confirmed ∧
    (VirtualMempool.confirmStep alwaysConfirmCfg 1 (XorShift32.init 7)
        includedTx).2.confirmedBlockNumber = some 1 := by
  have h := (((c8_confirm_rule alwaysConfirmCfg 1 (XorShift32.init 7)
    includedTx).2 1 (by decide) (by decide)).2 (by decide))
  have hconf := h.1.mpr (Or.inl (by decide))
  exact ⟨hconf, (h.2.1 hconf).1⟩

end HyperEvm

namespace HyperEvm

/-! ## Book well-formedness (for C3 and C4) -/

/-- Well-formedness of one price level: the stored counters agree with
the queue contents, and each queued (resting) order satisfies the
iceberg split invariant with a nonnegative displayed slice and a
positive display peak. -/
def LevelWF (lvl : PriceLevel) : Prop :=
  lvl.orderCount = lvl.queue.length ∧
  lvl.totalVisibleQuantity =
    (lvl.queue.map fun n => n.order.displayedRemainingQuantity).sum ∧
  ∀ n ∈ lvl.queue,
    n.order.displayedRemainingQuantity + n.order.reserveRemainingQuantity =
      n.order.remainingQuantity ∧
    0 ≤ n.order.displayedRemainingQuantity ∧
    0 < n.order.displayQuantity

/-- Well-formedness of a side index: keys strictly ascending, every key
is the internal price of its level for this side, every level is
well-formed, and levels hold only orders of this side. -/
def SideWF (side : Side) (s : SideIndex) : Prop :=
  List.Pairwise (fun a b => a.1 < b.1) s ∧
  ∀ e ∈ s, e.1 = Book.toInternalPrice side e.2.price ∧ LevelWF e.2 ∧
    ∀ n ∈ e.2.queue, n.order.side = side

/-- Well-formedness of a book: both side indices are well-formed. -/
def BookWF (b : Book) : Prop :=
  SideWF .buy b.bids ∧ SideWF .sell b.asks

namespace SideIndex

/-- Members of an upsert are the new entry or old entries. -/
theorem mem_upsert (s : SideIndex) (k : ℚ) (v : PriceLevel)
    (e : ℚ × PriceLevel) (he : e ∈ upsert s k v) : e = (k, v) ∨ e ∈ s := by
  induction s with
  | nil => simpa [upsert] using he
  | cons hd tl ih =>
      unfold upsert at he
      by_cases h1 : k = hd.1
      · rw [if_pos h1] at he
        rcases List.mem_cons.mp he with h | h
        · exact Or.inl h
        · exact Or.inr (List.mem_cons_of_mem hd h)
      · rw [if_neg h1] at he
        by_cases h2 : k < hd.1
        · rw [if_pos h2] at he
          rcases List.mem_cons.mp he with h | h
          · exact Or.inl h
          · exact Or.inr h
        · rw [if_neg h2] at he
          rcases List.mem_cons.mp he with h | h
          · exact Or.inr (h ▸ List.mem_cons_self hd tl)
          · rcases ih h with h' | h'
            · exact Or.inl h'
            · exact Or.inr (List.mem_cons_of_mem hd h')

/-- Upsert at a key keeps a side index well-formed, provided the new
level is well-formed and keyed by its own internal price. -/
theorem sideWF_upsert (side : Side) (s : SideIndex) (k : ℚ) (v : PriceLevel)
    (hs : SideWF side s) (hv : LevelWF v)
    (hk : k = Book.toInternalPrice side v.price)
    (hside : ∀ n ∈ v.queue, n.order.side = side) :
    SideWF side (upsert s k v) := by
  obtain ⟨hpair, hmem⟩ := hs
  induction s with
  | nil =>
      refine ⟨by simp [upsert], ?_⟩
      intro e he
      simp only [upsert, List.mem_singleton] at he
      exact he ▸ ⟨hk, hv, hside⟩
  | cons hd tl ih =>
      rcases List.pairwise_cons.mp hpair with ⟨hhd, htl⟩
      have hmemtl : ∀ e ∈ tl, e.1 = Book.toInternalPrice side e.2.price ∧
          LevelWF e.2 ∧ ∀ n ∈ e.2.queue, n.order.side = side :=
        fun e he => hmem e (List.mem_cons_of_mem hd he)
      unfold upsert
      by_cases h1 : k = hd.1
      · rw [if_pos h1]
        refine ⟨List.pairwise_cons.mpr ⟨fun e he => h1 ▸ hhd e he, htl⟩, ?_⟩
        intro e he
        rcases List.mem_cons.mp he with h | h
        · exact h ▸ ⟨hk, hv, hside⟩
        · exact hmemtl e h
      · rw [if_neg h1]
        by_cases h2 : k < hd.1
        · rw [if_pos h2]
          refine ⟨List.pairwise_cons.mpr ⟨?_, hpair⟩, ?_⟩
          · intro e he
            rcases List.mem_cons.mp he with h | h
            · exact h ▸ h2
            · exact lt_trans h2 (hhd e h)
          · intro e he
            rcases List.mem_cons.mp he with h | h
            · exact h ▸ ⟨hk, hv, hside⟩
            · exact hmem e h
        · rw [if_neg h2]
          have hgt : hd.1 < k := lt_of_le_of_ne (not_lt.mp h2) fun h => h1 h.symm
          obtain ⟨ihpair, ihmem⟩ := ih htl hmemtl
          refine ⟨List.pairwise_cons.mpr ⟨?_, ihpair⟩, ?_⟩
          · intro e he
            rcases mem_upsert tl k v e he with h | h
            · exact h ▸ hgt
            · exact hhd e h
          · intro e he
            rcases List.mem_cons.mp he with h | h
            · exact h ▸ hmem hd (List.mem_cons_self hd tl)
            · exact ihmem e h

/-- Delete yields a sublist. -/
theorem del_sublist (s : SideIndex) (k : ℚ) : List.Sublist (del s k) s := by
  induction s with
  | nil => simp [del]
  | cons hd tl ih =>
      unfold del
      by_cases h : hd.1 = k
      · rw [if_pos h]
        exact List.sublist_cons_self hd tl
      · rw [if_neg h]
        exact List.Sublist.cons₂ hd ih

/-- Delete keeps a side index well-formed. -/
theorem sideWF_del (side : Side) (s : SideIndex) (k : ℚ)
    (hs : SideWF side s) : SideWF side (del s k) :=
  ⟨hs.1.sublist (del_sublist s k),
    fun e he => hs.2 e ((del_sublist s k).mem he)⟩

/-- `get` returns a member entry. -/
theorem get_mem (s : SideIndex) (k : ℚ) (v : PriceLevel)
    (h : get s k = some v) : (k, v) ∈ s := by
  unfold get at h
  rcases hf : s.find? (fun e => e.1 = k) with _ | e
  · rw [hf] at h; exact absurd h (by simp)
  · rw [hf] at h
    have hmem := List.mem_of_find?_eq_some hf
    have hkey : e.1 = k := by
      have := List.find?_some hf
      simpa using this
    cases e
    simp only [Option.some.injEq] at h
    simpa [← hkey, ← h] using hmem

end SideIndex

end HyperEvm

namespace HyperEvm

namespace PriceLevel

/-- Unlinking the head node. -/
theorem unlink_cons_self (n : OrderQueueNode) (rest : List OrderQueueNode) :
    unlink (n :: rest) n.nodeId = rest := by
  simp [unlink]

/-- The queue after removing the head node. -/
theorem remove_head_queue (lvl : PriceLevel) (n : OrderQueueNode)
    (rest : List OrderQueueNode) (hq : lvl.queue = n :: rest) :
    (lvl.remove n).queue = rest := by
  simp [remove, hq, unlink_cons_self]

/-- Removing the head of a well-formed level keeps it well-formed. -/
theorem levelWF_remove_head (lvl : PriceLevel) (n : OrderQueueNode)
    (rest : List OrderQueueNode) (hq : lvl.queue = n :: rest)
    (h : LevelWF lvl) : LevelWF (lvl.remove n) := by
  obtain ⟨hc, hv, ho⟩ := h
  rw [hq] at hc hv
  refine ⟨?_, ?_, ?_⟩
  · rw [remove_head_queue lvl n rest hq]
    simp only [remove]
    rw [hc]
    simp
  · rw [remove_head_queue lvl n rest hq]
    simp only [remove]
    rw [hv]
    simp
  · rw [remove_head_queue lvl n rest hq]
    intro m hm
    exact ho m (hq ▸ List.mem_cons_of_mem n hm)

/-- Facts about unlinking a node located by `find?` (the unlink splices
out exactly the found occurrence). -/
theorem unlink_find? (q : List OrderQueueNode) (nid : ℕ)
    (node : OrderQueueNode)
    (h : q.find? (fun m => m.nodeId = nid) = some node) :
    q.length = (unlink q nid).length + 1 ∧
    (q.map fun m => m.order.displayedRemainingQuantity).sum =
      ((unlink q nid).map fun m => m.order.displayedRemainingQuantity).sum +
        node.order.displayedRemainingQuantity ∧
    ∀ m ∈ unlink q nid, m ∈ q := by
  induction q with
  | nil => exact absurd h (by simp)
  | cons hd tl ih =>
      by_cases hh : hd.nodeId = nid
      · have hnode : hd = node := by
          have : (hd :: tl).find? (fun m => m.nodeId = nid) = some hd := by
            simp [List.find?_cons, hh]
          rw [this] at h
          exact Option.some.injEq _ _ ▸ h.symm ▸ rfl
        subst hnode
        constructor
        · simp [unlink, hh]
        constructor
        · simp [unlink, hh]
          ring
        · intro m hm
          simp only [unlink, if_pos hh] at hm
          exact List.mem_cons_of_mem hd hm
      · have hfind : tl.find? (fun m => m.nodeId = nid) = some node := by
          have := @List.find?_cons_of_neg _ (fun m => m.nodeId = nid) hd tl
            (by simpa using hh)
          rw [this] at h
          exact h
        obtain ⟨ih1, ih2, ih3⟩ := ih hfind
        constructor
        · simp only [unlink, if_neg hh, List.length_cons, ih1]
        constructor
        · simp only [unlink, if_neg hh, List.map_cons, List.sum_cons, ih2]
          ring
        · intro m hm
          simp only [unlink, if_neg hh, List.mem_cons] at hm
          rcases hm with h' | h'
          · exact h' ▸ List.mem_cons_self hd tl
          · exact List.mem_cons_of_mem hd (ih3 m h')

/-- Removing a node located by `find?` keeps a well-formed level
well-formed. -/
theorem levelWF_remove_found (lvl : PriceLevel) (nid : ℕ)
    (node : OrderQueueNode)
    (hf : lvl.queue.find? (fun m => m.nodeId = nid) = some node)
    (h : LevelWF lvl) : LevelWF (lvl.remove node) := by
  obtain ⟨hc, hv, ho⟩ := h
  have hnid : node.nodeId = nid := by
    have := List.find?_some hf
    simpa using this
  obtain ⟨h1, h2, h3⟩ := unlink_find? lvl.queue nid node hf
  refine ⟨?_, ?_, ?_⟩
  · simp only [remove, hnid]
    rw [hc]
    push_cast [h1]
    ring
  · simp only [remove, hnid]
    rw [hv, h2]
    ring
  · simp only [remove, hnid]
    intro m hm
    exact ho m (h3 m hm)

/-- `moveToTail` of the head node: the queue is the same list or the
head rotated to the tail; the counters are untouched. -/
theorem moveToTail_head_queue (lvl : PriceLevel) (n : OrderQueueNode)
    (rest : List OrderQueueNode) (hq : lvl.queue = n :: rest) :
    ((lvl.moveToTail n).queue = n :: rest ∨
      (lvl.moveToTail n).queue = rest ++ [n]) ∧
    (lvl.moveToTail n).orderCount = lvl.orderCount ∧
    (lvl.moveToTail n).totalVisibleQuantity = lvl.totalVisibleQuantity ∧
    (lvl.moveToTail n).price = lvl.price := by
  unfold moveToTail
  split
  · split
    · exact ⟨Or.inl hq, rfl, rfl, rfl⟩
    · refine ⟨Or.inr ?_, rfl, rfl, rfl⟩
      simp only [hq, unlink_cons_self]
  · refine ⟨Or.inr ?_, rfl, rfl, rfl⟩
    simp only [hq, unlink_cons_self]

/-- `moveToTail` of the head keeps a well-formed level well-formed. -/
theorem levelWF_moveToTail_head (lvl : PriceLevel) (n : OrderQueueNode)
    (rest : List OrderQueueNode) (hq : lvl.queue = n :: rest)
    (h : LevelWF lvl) : LevelWF (lvl.moveToTail n) := by
  obtain ⟨hc, hv, ho⟩ := h
  obtain ⟨hcases, hcount, hvis, _⟩ := moveToTail_head_queue lvl n rest hq
  rcases hcases with hnew | hnew <;>
    refine ⟨?_, ?_, ?_⟩
  · rw [hcount, hnew, hc, hq]
  · rw [hvis, hnew, hv, hq]
  · rw [hnew, ← hq]; exact ho
  · rw [hcount, hnew, hc, hq]; simp
  · rw [hvis, hnew, hv, hq]; simp; ring
  · rw [hnew]
    intro m hm
    rcases List.mem_append.mp hm with h' | h'
    · exact ho m (hq ▸ List.mem_cons_of_mem n h')
    · simp only [List.mem_singleton] at h'
      exact ho m (hq ▸ h' ▸ List.mem_cons_self n rest)

/-- The members of a `moveToTail`-of-head queue are the original members. -/
theorem moveToTail_head_mem (lvl : PriceLevel) (n : OrderQueueNode)
    (rest : List OrderQueueNode) (hq : lvl.queue = n :: rest) :
    ∀ m ∈ (lvl.moveToTail n).queue, m ∈ lvl.queue := by
  obtain ⟨hcases, _, _, _⟩ := moveToTail_head_queue lvl n rest hq
  rcases hcases with hnew | hnew <;> rw [hnew, hq]
  · exact fun m hm => hm
  · intro m hm
    rcases List.mem_append.mp hm with h' | h'
    · exact List.mem_cons_of_mem n h'
    · simp only [List.mem_singleton] at h'
      exact h' ▸ List.mem_cons_self n rest

/-- Appending a node with a well-formed order keeps a level well-formed. -/
theorem levelWF_append (lvl : PriceLevel) (n : OrderQueueNode)
    (h : LevelWF lvl)
    (hsum : n.order.displayedRemainingQuantity +
      n.order.reserveRemainingQuantity = n.order.remainingQuantity)
    (hnn : 0 ≤ n.order.displayedRemainingQuantity)
    (hdp : 0 < n.order.displayQuantity) : LevelWF (lvl.append n) := by
  obtain ⟨hc, hv, ho⟩ := h
  refine ⟨?_, ?_, ?_⟩
  · simp [append, hc]
  · simp [append, hv]
  · simp only [append, List.mem_append, List.mem_singleton]
    rintro m (hm | rfl)
    · exact ho m hm
    · exact ⟨hsum, hnn, hdp⟩

end PriceLevel

end HyperEvm

namespace HyperEvm

namespace Book

/-- Both side indices of a well-formed book are well-formed for their
side. -/
theorem sideWF_indexForSide (b : Book) (hwf : BookWF b) (side : Side) :
    SideWF side (indexForSide b side) := by
  cases side
  · exact hwf.1
  · exact hwf.2

/-- Writing a well-formed index back into its side keeps the book
well-formed. -/
theorem bookWF_setIndexForSide (b : Book) (side : Side) (idx : SideIndex)
    (hwf : BookWF b) (hidx : SideWF side idx) :
    BookWF (setIndexForSide b side idx) := by
  cases side
  · exact ⟨hidx, hwf.2⟩
  · exact ⟨hwf.1, hidx⟩

/-- `removeLevel` keeps the book well-formed. -/
theorem bookWF_removeLevel (b : Book) (side : Side) (price : ℚ)
    (hwf : BookWF b) : BookWF (removeLevel b side price) :=
  bookWF_setIndexForSide b side _ hwf
    (SideIndex.sideWF_del side _ _ (sideWF_indexForSide b hwf side))

/-- `setLevel` with a well-formed level of matching side keeps the book
well-formed. -/
theorem bookWF_setLevel (b : Book) (side : Side) (price : ℚ)
    (lvl : PriceLevel) (hwf : BookWF b) (hp : price = lvl.price)
    (hl : LevelWF lvl) (hside : ∀ n ∈ lvl.queue, n.order.side = side) :
    BookWF (setLevel b side price lvl) := by
  subst hp
  exact bookWF_setIndexForSide b side _ hwf
    (SideIndex.sideWF_upsert side _ _ lvl (sideWF_indexForSide b hwf side)
      hl rfl hside)

/-- `createOrderEvent` touches only the sequence counter and the event
ring. -/
theorem bookWF_createOrderEvent (b : Book) (g : IdGen) (o : BookOrder)
    (status : OrderStatus) (reason : Option String) (ts : ℕ)
    (hwf : BookWF b) : BookWF (createOrderEvent b g o status reason ts).2.1 :=
  hwf

/-- `removeOrderFromBook` keeps the book well-formed when the removed
level stays well-formed and holds only orders of the named side. -/
theorem bookWF_removeOrderFromBook (b : Book) (orderId : String)
    (node : OrderQueueNode) (lvl : PriceLevel) (side : Side)
    (hwf : BookWF b) (hl : LevelWF (lvl.remove node))
    (hside : ∀ n ∈ (lvl.remove node).queue, n.order.side = side) :
    BookWF (removeOrderFromBook b orderId node lvl side) := by
  unfold removeOrderFromBook
  have h1 : BookWF (setLevel b side (lvl.remove node).price
      (lvl.remove node)) := bookWF_setLevel b side _ _ hwf rfl hl hside
  by_cases he : (lvl.remove node).isEmpty = true
  · rw [if_pos he]
    exact bookWF_removeLevel _ side _ h1
  · rw [if_neg he]
    exact h1

/-- `toInternalPrice` is injective for a fixed side. -/
theorem toInternalPrice_injective (side : Side) (p q : ℚ)
    (h : toInternalPrice side p = toInternalPrice side q) : p = q := by
  cases side <;> simpa [toInternalPrice] using h

/-- `addOrderToBook` keeps the book well-formed when the added order
satisfies the resting-order invariants. -/
theorem bookWF_addOrderToBook (b : Book) (o : BookOrder) (hwf : BookWF b)
    (hsum : o.displayedRemainingQuantity + o.reserveRemainingQuantity =
      o.remainingQuantity)
    (hnn : 0 ≤ o.displayedRemainingQuantity)
    (hdp : 0 < o.displayQuantity) : BookWF (addOrderToBook b o) := by
  unfold addOrderToBook
  rcases hp : o.price with _ | price
  · exact hwf
  · have hWFside := sideWF_indexForSide b hwf o.side
    rcases hget : SideIndex.get (indexForSide b o.side)
        (toInternalPrice o.side price) with _ | lvl
    all_goals simp only [hget]
    · refine bookWF_setIndexForSide b o.side _ hwf
        (SideIndex.sideWF_upsert _ _ _ _ hWFside ?_ ?_ ?_)
      · exact PriceLevel.levelWF_append _ _ ⟨rfl, by simp [PriceLevel.mk0],
          by simp [PriceLevel.mk0]⟩ hsum hnn hdp
      · simp [PriceLevel.mk0, PriceLevel.append]
      · simp only [PriceLevel.mk0, PriceLevel.append, List.nil_append,
          List.mem_singleton]
        rintro n rfl
        rfl
    · have hmem := SideIndex.get_mem _ _ _ hget
      obtain ⟨hkey, hlvl, hsides⟩ := hWFside.2 _ hmem
      have hprice : lvl.price = price :=
        (toInternalPrice_injective o.side price lvl.price hkey).symm
      refine bookWF_setIndexForSide b o.side _ hwf
        (SideIndex.sideWF_upsert _ _ _ _ hWFside ?_ ?_ ?_)
      · exact PriceLevel.levelWF_append _ _ hlvl hsum hnn hdp
      · simp [PriceLevel.append, hprice]
      · simp only [PriceLevel.append, List.mem_append, List.mem_singleton]
        rintro n (hn | rfl)
        · exact hsides n hn
        · rfl

end Book

end HyperEvm

namespace HyperEvm

namespace Book

/-- The best opposite level is a member of the opposite side index. -/
theorem getBest_mem (b : Book) (side : Side) (lvl : PriceLevel)
    (h : getBestOppositeLevel b side = some lvl) :
    ∃ k, (k, lvl) ∈ indexForSide b (oppositeSide side) := by
  cases side
  · unfold getBestOppositeLevel at h
    obtain ⟨⟨k, v⟩, he, hv⟩ := Option.map_eq_some'.mp h
    cases hv
    exact ⟨k, by
      simpa [indexForSide, oppositeSide] using List.mem_of_mem_head? he⟩
  · unfold getBestOppositeLevel at h
    obtain ⟨⟨k, v⟩, he, hv⟩ := Option.map_eq_some'.mp h
    cases hv
    exact ⟨k, by
      simpa [indexForSide, oppositeSide] using List.mem_of_mem_head? he⟩

/-- `resolveSelfTradePrevention` keeps the book well-formed, given that
removing the maker node keeps the maker level well-formed and one-sided. -/
theorem bookWF_resolveSelfTradePrevention (b : Book) (g : IdGen)
    (taker maker : BookOrder) (makerNode : OrderQueueNode)
    (makerLevel : PriceLevel) (nowMs : ℕ) (hwf : BookWF b)
    (hl : LevelWF (makerLevel.remove makerNode))
    (hside : ∀ n ∈ (makerLevel.remove makerNode).queue,
      n.order.side = maker.side) :
    BookWF (resolveSelfTradePrevention b g taker maker makerNode makerLevel
      nowMs).2.1 := by
  unfold resolveSelfTradePrevention
  by_cases hu : taker.userId ≠ maker.userId
  · rw [if_pos hu]; exact hwf
  · rw [if_neg hu]
    cases taker.selfTradePrevention
    · exact hwf
    · exact hwf
    · exact bookWF_createOrderEvent _ _ _ _ _ _
        (bookWF_removeOrderFromBook b maker.id makerNode makerLevel
          maker.side hwf hl hside)
    · exact bookWF_createOrderEvent _ _ _ _ _ _
        (bookWF_removeOrderFromBook b maker.id makerNode makerLevel
          maker.side hwf hl hside)

/-- The matching loop preserves book well-formedness. -/
theorem matchLoop_WF (nowMs : ℕ) : ∀ (fuel : ℕ) (g : IdGen) (b : Book)
    (taker : BookOrder) (tr : List TradeRecord) (ev : List OrderEvent),
    BookWF b → BookWF (matchLoop nowMs fuel g b taker tr ev).2.1 := by
  intro fuel
  induction fuel with
  | zero => intro g b taker tr ev hwf; exact hwf
  | succ n ih =>
    intro g b taker tr ev hwf
    simp only [matchLoop]
    by_cases hrem : ¬ taker.remainingQuantity > 0
    · rw [if_pos hrem]; exact hwf
    rw [if_neg hrem]
    split
    · exact hwf
    rename_i bestLevel hbest
    by_cases hcross : stopsCrossing taker bestLevel.price = true
    · rw [if_pos hcross]; exact hwf
    rw [if_neg hcross]
    split
    · exact ih _ _ taker tr ev (bookWF_removeLevel b _ _ hwf)
    rename_i makerNode restQ hq
    obtain ⟨key, hkmem⟩ := getBest_mem b taker.side bestLevel hbest
    obtain ⟨-, hlvlWF, hsides⟩ :=
      (sideWF_indexForSide b hwf (oppositeSide taker.side)).2 _ hkmem
    have hmside : makerNode.order.side = oppositeSide taker.side :=
      hsides makerNode (hq ▸ List.mem_cons_self _ _)
    have hremWF : LevelWF (bestLevel.remove makerNode) :=
      PriceLevel.levelWF_remove_head bestLevel makerNode restQ hq hlvlWF
    have hremside : ∀ m ∈ (bestLevel.remove makerNode).queue,
        m.order.side = makerNode.order.side := by
      rw [PriceLevel.remove_head_queue bestLevel makerNode restQ hq]
      intro m hm
      rw [hmside]
      exact hsides m (hq ▸ List.mem_cons_of_mem makerNode hm)
    have hstpWF := bookWF_resolveSelfTradePrevention b g taker makerNode.order
      makerNode bestLevel nowMs hwf hremWF hremside
    split
    · exact ih _ _ taker tr ev hstpWF
    · exact bookWF_createOrderEvent _ _ _ _ _ _ hstpWF
    · exact bookWF_createOrderEvent _ _ _ _ _ _ hstpWF
    · by_cases hexec : min taker.remainingQuantity
          makerNode.order.displayedRemainingQuantity ≤ 0
      · rw [if_pos hexec]; exact hwf
      rw [if_neg hexec]
      obtain ⟨hcount, hvis, hords⟩ := hlvlWF
      obtain ⟨hmsum, hmnn, hmdp⟩ := hords makerNode
        (hq ▸ List.mem_cons_self makerNode restQ)
      rw [hq] at hcount hvis
      have hords' : ∀ m ∈ restQ,
          m.order.displayedRemainingQuantity +
            m.order.reserveRemainingQuantity = m.order.remainingQuantity ∧
          0 ≤ m.order.displayedRemainingQuantity ∧
          0 < m.order.displayQuantity :=
        fun m hm => hords m (hq ▸ List.mem_cons_of_mem makerNode hm)
      have hsides' : ∀ m ∈ restQ, m.order.side = oppositeSide taker.side :=
        fun m hm => hsides m (hq ▸ List.mem_cons_of_mem makerNode hm)
      have hemin : min taker.remainingQuantity
          makerNode.order.displayedRemainingQuantity ≤
            makerNode.order.displayedRemainingQuantity :=
        min_le_right _ _
      split
      · -- maker fully filled and removed
        apply ih
        apply bookWF_createOrderEvent
        apply bookWF_removeOrderFromBook
        · apply bookWF_setLevel
          · exact hwf
          · rfl
          · refine ⟨?_, ?_, ?_⟩
            · simpa [PriceLevel.reduceVisibleQuantity] using hcount
            · simp only [PriceLevel.reduceVisibleQuantity]
              rw [hvis]
              simp only [List.map_cons, List.sum_cons]
              ring
            · simp only [PriceLevel.reduceVisibleQuantity, List.mem_cons]
              rintro m (rfl | hm)
              · exact ⟨by simp; try linarith [hmsum], by simp; try linarith [hemin],
                  by simpa using hmdp⟩
              · exact hords' m hm
          · simp only [PriceLevel.reduceVisibleQuantity, List.mem_cons]
            rintro m (rfl | hm)
            · simpa using hmside
            · exact hsides' m hm
        · apply PriceLevel.levelWF_remove_head _ _ restQ
          · rfl
          · refine ⟨?_, ?_, ?_⟩
            · simpa [PriceLevel.reduceVisibleQuantity] using hcount
            · simp only [PriceLevel.reduceVisibleQuantity]
              rw [hvis]
              simp only [List.map_cons, List.sum_cons]
              ring
            · simp only [PriceLevel.reduceVisibleQuantity, List.mem_cons]
              rintro m (rfl | hm)
              · exact ⟨by simp; try linarith [hmsum], by simp; try linarith [hemin],
                  by simpa using hmdp⟩
              · exact hords' m hm
        · rw [PriceLevel.remove_head_queue _ _ restQ rfl]
          intro m hm
          exact (hsides' m hm).trans hmside.symm
      · -- maker stays resting
        split
        · -- iceberg replenishment, maker moved to tail
          rename_i hrepl
          apply ih
          apply bookWF_setLevel
          · exact hwf
          · rfl
          · apply PriceLevel.levelWF_moveToTail_head _ _ restQ rfl
            refine ⟨?_, ?_, ?_⟩
            · simpa [PriceLevel.increaseVisibleQuantity,
                PriceLevel.reduceVisibleQuantity] using hcount
            · simp only [PriceLevel.increaseVisibleQuantity,
                PriceLevel.reduceVisibleQuantity]
              rw [hvis]
              simp only [List.map_cons, List.sum_cons]
              have h0 : makerNode.order.displayedRemainingQuantity -
                  min taker.remainingQuantity
                    makerNode.order.displayedRemainingQuantity = 0 := by
                simpa using hrepl.1
              linarith [h0]
            · intro m hm
              rcases List.mem_cons.mp hm with rfl | hm'
              · have h0 : makerNode.order.displayedRemainingQuantity -
                    taker.remainingQuantity ⊓
                      makerNode.order.displayedRemainingQuantity = 0 := by
                  simpa using hrepl.1
                refine ⟨by simp; linarith [hmsum, h0], ?_,
                  by simpa using hmdp⟩
                have h1 : 0 < makerNode.order.displayQuantity := hmdp
                have h2 : (0:ℚ) <
                    makerNode.order.reserveRemainingQuantity := by
                  simpa using hrepl.2
                exact le_of_lt (lt_min h1 h2)
              · exact hords' m hm'
          · intro m hm
            have hmm := PriceLevel.moveToTail_head_mem _ _ restQ rfl m hm
            rcases List.mem_cons.mp hmm with h' | h'
            · rw [h']
              simpa using hmside
            · exact hsides' m h'
        · -- plain partial fill of the head maker
          apply ih
          apply bookWF_setLevel
          · exact hwf
          · rfl
          · refine ⟨?_, ?_, ?_⟩
            · simpa [PriceLevel.reduceVisibleQuantity] using hcount
            · simp only [PriceLevel.reduceVisibleQuantity]
              rw [hvis]
              simp only [List.map_cons, List.sum_cons]
              ring
            · simp only [List.mem_cons]
              rintro m (rfl | hm)
              · exact ⟨by simp; try linarith [hmsum], by simp; try linarith [hemin],
                  by simpa using hmdp⟩
              · exact hords' m hm
          · simp only [List.mem_cons]
            rintro m (rfl | hm)
            · simpa using hmside
            · exact hsides' m hm

end Book

end HyperEvm

namespace HyperEvm

namespace Book

/-- The matching loop never changes the incoming order's display peak. -/
theorem matchLoop_taker_displayQuantity (nowMs : ℕ) :
    ∀ (fuel : ℕ) (g : IdGen) (b : Book) (taker : BookOrder)
      (tr : List TradeRecord) (ev : List OrderEvent),
    (matchLoop nowMs fuel g b taker tr ev).2.2.1.displayQuantity =
      taker.displayQuantity := by
  intro fuel
  induction fuel with
  | zero => intros; rfl
  | succ n ih =>
    intro g b taker tr ev
    simp only [matchLoop]
    by_cases hrem : ¬ taker.remainingQuantity > 0
    · rw [if_pos hrem]
    · rw [if_neg hrem]
      split
      · rfl
      rename_i bestLevel hbest
      by_cases hcross : stopsCrossing taker bestLevel.price = true
      · rw [if_pos hcross]
      · rw [if_neg hcross]
        split
        · exact ih _ _ taker tr ev
        rename_i makerNode restQ hq
        split
        · exact ih _ _ taker tr ev
        · rfl
        · rfl
        · by_cases hexec : min taker.remainingQuantity
              makerNode.order.displayedRemainingQuantity ≤ 0
          · rw [if_pos hexec]
          · rw [if_neg hexec]
            split
            · exact ih _ _ _ _ _
            · split
              · exact ih _ _ _ _ _
              · exact ih _ _ _ _ _

/-- A request that passes validation has a positive quantity. -/
theorem validate_quantity_pos (b : Book) (request : OrderRequest)
    (h : validateRequest b request = Option.none) : 0 < request.quantity := by
  unfold validateRequest at h
  split_ifs at h with h1 h2 h3 h4 h5
  all_goals exact lt_of_not_le h3

/-- A request that passes validation has a positive display peak
(`icebergDisplayQuantity ?? quantity`). -/
theorem validate_display_pos (b : Book) (request : OrderRequest)
    (h : validateRequest b request = Option.none) :
    0 < request.icebergDisplayQuantity.getD request.quantity := by
  have hq := validate_quantity_pos b request h
  rcases hdq : request.icebergDisplayQuantity with _ | dq
  · simpa using hq
  · simp only [Option.getD_some]
    unfold validateRequest at h
    split_ifs at h with h1 h2 h3 h4 h5
    · rcases hlp : validateLimitPrice b request with _ | r <;>
        rw [hlp] at h <;> exact absurd h (by simp)
    · rcases hlp : validateLimitPrice b request with _ | r
      · rw [hlp] at h
        rcases hmq : validateMinQuantity b request with _ | r
        · rw [hmq] at h
          unfold validateIceberg at h
          simp only [hdq] at h
          split_ifs at h with h7 h8
          push_neg at h8
          exact h8.1
        · rw [hmq] at h
          exact absurd h (by simp)
      · rw [hlp] at h
        exact absurd h (by simp)

/-- The display peak recorded on a freshly created order is
`icebergDisplayQuantity ?? quantity`. -/
theorem createOrder_displayQuantity (b : Book) (g : IdGen)
    (request : OrderRequest) (timestampMs : ℕ) :
    (createOrder b g request timestampMs).1.displayQuantity =
      request.icebergDisplayQuantity.getD request.quantity := by
  unfold createOrder
  cases hid : request.id <;> rfl

/-- `submitOrder` preserves book well-formedness. -/
theorem submitOrder_WF (b : Book) (g : IdGen) (request : OrderRequest)
    (nowMs : ℕ) (hwf : BookWF b) :
    BookWF (submitOrder b g request nowMs).2.1 := by
  unfold submitOrder
  rcases hv : validateRequest b request with _ | reason
  · simp only [hv]
    rcases hM : matchIncomingOrder ({ b with sequence := b.sequence + 1 })
        (createOrder b g request nowMs).2.2
        (createOrder b g request nowMs).1 nowMs
      with ⟨g2, b2, order2, resultTrades, resultEvents⟩
    have hb2 : BookWF b2 := by
      unfold matchIncomingOrder at hM
      have h := matchLoop_WF nowMs
        (matchFuel ({ b with sequence := b.sequence + 1 })
          (createOrder b g request nowMs).1.side)
        (createOrder b g request nowMs).2.2
        ({ b with sequence := b.sequence + 1 })
        (createOrder b g request nowMs).1 [] []
        (show BookWF { b with sequence := b.sequence + 1 } from hwf)
      rw [hM] at h
      exact h
    have hdq2 : order2.displayQuantity =
        request.icebergDisplayQuantity.getD request.quantity := by
      have h := matchLoop_taker_displayQuantity nowMs
        (matchFuel ({ b with sequence := b.sequence + 1 })
          (createOrder b g request nowMs).1.side)
        (createOrder b g request nowMs).2.2
        ({ b with sequence := b.sequence + 1 })
        (createOrder b g request nowMs).1 [] []
      unfold matchIncomingOrder at hM
      rw [hM] at h
      rw [show ((g2, b2, order2, resultTrades,
          resultEvents) : IdGen × Book × BookOrder × List TradeRecord ×
          List OrderEvent).2.2.1 = order2 from rfl] at h
      rw [h]
      exact createOrder_displayQuantity b g request nowMs
    have hdp : 0 < order2.displayQuantity := by
      rw [hdq2]
      exact validate_display_pos b request hv
    by_cases hFok : ((Book.createOrder b g request nowMs).1.timeInForce
        = TimeInForce.FOK ∧
        ¬ Book.hasEnoughLiquidity (Book.createOrder b g request nowMs).2.1
          (Book.createOrder b g request nowMs).1)
    · simp only [Book.createOrder, Book.createOrderEvent] at hFok ⊢
      rw [if_pos hFok]
      exact hwf
    · simp only [Book.createOrder, Book.createOrderEvent] at hFok hM ⊢
      rw [if_neg hFok]
      simp only [hM]
      by_cases hrem : order2.remainingQuantity > 0
      · rw [if_pos hrem]
        by_cases hgtc : (order2.kind = OrderKind.limit ∧
            order2.timeInForce = TimeInForce.GTC)
        · rw [if_pos hgtc]
          have h1 : BookWF (addOrderToBook b2
              { prepareOrderForBook order2 with
                  status := if (prepareOrderForBook order2).remainingQuantity =
                      (prepareOrderForBook order2).originalQuantity then
                    OrderStatus.new else OrderStatus.partiallyFilled }) := by
            apply bookWF_addOrderToBook
            · exact hb2
            · simp only [prepareOrderForBook]
              ring
            · simp only [prepareOrderForBook]
              exact le_min (le_of_lt hdp) (le_of_lt hrem)
            · simp only [prepareOrderForBook]
              exact hdp
          exact h1
        · rw [if_neg hgtc]
          exact hb2
      · rw [if_neg hrem]
        exact hb2
  · simp only [hv, Book.createOrder, Book.createOrderEvent]
    exact hwf

end Book

end HyperEvm

namespace HyperEvm

namespace Book

/-- `cancelOrder` preserves book well-formedness. -/
theorem cancelOrder_WF (b : Book) (g : IdGen) (orderId : String)
    (userId : Option String) (nowMs : ℕ) (hwf : BookWF b) :
    BookWF (cancelOrder b g orderId userId nowMs).2.1 := by
  unfold cancelOrder
  rcases href : mapGet b.ordersById orderId with _ | ref
  · simp only [href]
    exact hwf
  rcases hlvl : SideIndex.get (indexForSide b ref.side)
      (toInternalPrice ref.side ref.price) with _ | lvl
  · simp only [href, hlvl]
    exact hwf
  rcases hnode : lvl.queue.find? (fun n => n.nodeId = ref.nodeId)
      with _ | node
  · simp only [href, hlvl, hnode]
    exact hwf
  simp only [href, hlvl, hnode]
  by_cases hm : userMismatch userId node.order = true
  · rw [if_pos hm]
    exact hwf
  · rw [if_neg hm]
    have hmem := SideIndex.get_mem _ _ _ hlvl
    obtain ⟨hkey, hlWF, hsides⟩ :=
      (sideWF_indexForSide b hwf ref.side).2 _ hmem
    have hlWF' : LevelWF (lvl.remove node) :=
      PriceLevel.levelWF_remove_found lvl ref.nodeId node hnode hlWF
    have hnid : node.nodeId = ref.nodeId := by
      have := List.find?_some hnode
      simpa using this
    have hside' : ∀ m ∈ (lvl.remove node).queue, m.order.side = ref.side := by
      intro m hmm
      obtain ⟨-, -, h3⟩ :=
        PriceLevel.unlink_find? lvl.queue ref.nodeId node hnode
      apply hsides
      apply h3
      simpa only [PriceLevel.remove, hnid] using hmm
    have h1 : BookWF (setLevel b ref.side lvl.price (lvl.remove node)) :=
      bookWF_setLevel b ref.side lvl.price (lvl.remove node) hwf rfl
        hlWF' hside'
    by_cases he : (lvl.remove node).isEmpty = true
    · rw [if_pos he]
      exact bookWF_removeLevel _ _ _ h1
    · rw [if_neg he]
      exact h1

end Book

/-- The books arising from the embedded order-book operations: a fresh
book, or the post-state of any completed `submitOrder` or `cancelOrder`
call on a reachable book. -/
inductive Reachable : Book → Prop where
  | init (symbol : String) (options : OrderBookOptions) :
      Reachable (Book.init symbol options)
  | submit (b : Book) (g : IdGen) (request : OrderRequest) (nowMs : ℕ) :
      Reachable b → Reachable (Book.submitOrder b g request nowMs).2.1
  | cancel (b : Book) (g : IdGen) (orderId : String)
      (userId : Option String) (nowMs : ℕ) :
      Reachable b → Reachable (Book.cancelOrder b g orderId userId nowMs).2.1

/-- Every reachable book is well-formed. -/
theorem reachable_WF (b : Book) (h : Reachable b) : BookWF b := by
  induction h with
  | init symbol options =>
      exact ⟨⟨List.Pairwise.nil, by simp [Book.init]⟩,
        ⟨List.Pairwise.nil, by simp [Book.init]⟩⟩
  | submit b g request nowMs _ ih =>
      exact Book.submitOrder_WF b g request nowMs ih
  | cancel b g orderId userId nowMs _ ih =>
      exact Book.cancelOrder_WF b g orderId userId nowMs ih

end HyperEvm

namespace HyperEvm

/-! ## C3 -/

/-- The (single) ask-side index entry of `oneMakerBook`. -/
def c3Entry : ℚ × PriceLevel :=
  match Book.indexForSide oneMakerBook Side.sell with
  | e :: _ => e
  | [] => (0, PriceLevel.mk0 0)

/-- C3: after every completed `submitOrder` or `cancelOrder` call
(modelled by `Reachable`), every price level in either side index has
`orderCount` equal to its queue length and `totalVisibleQuantity` equal
to the sum of `displayedRemainingQuantity` over its queue, and every
resting order satisfies `displayedRemainingQuantity +
reserveRemainingQuantity = remainingQuantity`. -/
theorem c3_resting_invariants (b : Book) (h : Reachable b) (side : Side)
    (e : ℚ × PriceLevel) (he : e ∈ Book.indexForSide b side) :
    e.2.orderCount = e.2.queue.length ∧
    e.2.totalVisibleQuantity =
      (e.2.queue.map fun n => n.order.displayedRemainingQuantity).sum ∧
    ∀ n ∈ e.2.queue,
      n.order.displayedRemainingQuantity + n.order.reserveRemainingQuantity =
        n.order.remainingQuantity := by
  obtain ⟨-, hl, -⟩ :=
    (Book.sideWF_indexForSide b (reachable_WF b h) side).2 e he
  exact ⟨hl.1, hl.2.1, fun n hn => (hl.2.2 n hn).1⟩

attribute [local semireducible] Rat.sub Rat.add Rat.mul Rat.inv
  Rat.ofScientific in
/-- C3 witness: the book holding one resting sell of 5 at 101 is
reachable, its ask entry is concrete, and the invariants hold there. -/
theorem c3_witness :
    Reachable oneMakerBook ∧
    c3Entry ∈ Book.indexForSide oneMakerBook Side.sell ∧
    (c3Entry.2.orderCount = c3Entry.2.queue.length ∧
    c3Entry.2.totalVisibleQuantity =
      (c3Entry.2.queue.map fun n => n.order.displayedRemainingQuantity).sum ∧
    ∀ n ∈ c3Entry.2.queue,
      n.order.displayedRemainingQuantity + n.order.reserveRemainingQuantity =
        n.order.remainingQuantity) :=
  ⟨Reachable.submit sampleBook sampleGen
      (sampleReq "m" "mu" .sell .limit 5 (some 101) Option.none) 1
      (Reachable.init "ETH-USD" sampleOpts),
   by decide,
   c3_resting_invariants oneMakerBook
     (Reachable.submit sampleBook sampleGen
       (sampleReq "m" "mu" .sell .limit 5 (some 101) Option.none) 1
       (Reachable.init "ETH-USD" sampleOpts))
     Side.sell c3Entry (by decide)⟩

end HyperEvm

namespace HyperEvm

namespace Book

/-- The crossing levels of a side list for an order: those the FOK walk
counts (every level for a market order), with their visible quantities
summed.  Hidden iceberg reserves are not part of
`totalVisibleQuantity`, so they are never counted. -/
def crossingSum (o : BookOrder) (s : SideIndex) : ℚ :=
  ((s.filter fun e => ! stopsCrossing o e.2.price).map
    fun e => e.2.totalVisibleQuantity).sum

/-- The sum of `totalVisibleQuantity` over opposite-side levels that
cross the order's price (all opposite levels for a market order). -/
def fokCrossingSum (b : Book) (o : BookOrder) : ℚ :=
  crossingSum o (indexForSide b (oppositeSide o.side))

/-- Once a level stops crossing, every level at a worse (larger
internal) key stops crossing as well. -/
theorem stopsCrossing_mono (o : BookOrder) (p q : ℚ)
    (hpq : toInternalPrice (oppositeSide o.side) p ≤
      toInternalPrice (oppositeSide o.side) q)
    (hp : stopsCrossing o p = true) : stopsCrossing o q = true := by
  unfold stopsCrossing isCrossingPrice at hp ⊢
  rcases hk : o.kind with _ | _
  · rcases hpr : o.price with _ | p0
    · rw [hk, hpr] at hp
      exact absurd hp (by simp)
    · rw [hk, hpr] at hp
      rcases hs : o.side with _ | _
      · rw [hs] at hp hpq
        simp only [oppositeSide, toInternalPrice] at hpq
        simp only [decide_eq_true_eq, not_le, not_lt] at hp ⊢
        linarith
      · rw [hs] at hp hpq
        simp only [oppositeSide, toInternalPrice] at hpq
        simp only [decide_eq_true_eq, not_le, not_lt] at hp ⊢
        linarith
  · rw [hk] at hp
    exact absurd hp (by simp)

/-- Visible quantity of a well-formed level is nonnegative. -/
theorem levelWF_tv_nonneg (lvl : PriceLevel) (h : LevelWF lvl) :
    0 ≤ lvl.totalVisibleQuantity := by
  rw [h.2.1]
  apply List.sum_nonneg
  intro x hx
  simp only [List.mem_map] at hx
  obtain ⟨n, hn, rfl⟩ := hx
  exact (h.2.2 n hn).2.1

/-- A crossing sum over levels with nonnegative visible quantity is
nonnegative. -/
theorem crossingSum_nonneg (o : BookOrder) (s : SideIndex)
    (hnn : ∀ e ∈ s, 0 ≤ e.2.totalVisibleQuantity) : 0 ≤ crossingSum o s := by
  apply List.sum_nonneg
  intro x hx
  simp only [List.mem_map, List.mem_filter] at hx
  obtain ⟨e, ⟨he, -⟩, rfl⟩ := hx
  exact hnn e he

/-- The early-exit liquidity walk over a sorted side succeeds exactly
when the accumulated start plus the total crossing visible quantity
reaches the order's remaining quantity. -/
theorem liquidityWalk_iff (o : BookOrder) (s : SideIndex) : ∀ (acc : ℚ),
    List.Pairwise (fun a b => a.1 < b.1) s →
    (∀ e ∈ s, e.1 = toInternalPrice (oppositeSide o.side) e.2.price) →
    (∀ e ∈ s, 0 ≤ e.2.totalVisibleQuantity) →
    acc < o.remainingQuantity →
    (liquidityWalk o s acc = true ↔
      o.remainingQuantity ≤ acc + crossingSum o s) := by
  induction s with
  | nil =>
      intro acc _ _ _ hacc
      simp only [liquidityWalk, crossingSum, List.filter_nil, List.map_nil,
        List.sum_nil, add_zero]
      constructor
      · intro h
        exact absurd h (by simp)
      · intro h
        exact absurd h (by linarith)
  | cons hd tl ih =>
      intro acc hsort hkey hnn hacc
      obtain ⟨k, lvl⟩ := hd
      by_cases hstop : stopsCrossing o lvl.price = true
      · have hallstop : ∀ e ∈ tl, stopsCrossing o e.2.price = true := by
          intro e he
          apply stopsCrossing_mono o lvl.price e.2.price _ hstop
          have hk1 := hkey (k, lvl) (by simp)
          have hk2 := hkey e (List.mem_cons_of_mem _ he)
          have hlt : k < e.1 := (List.pairwise_cons.mp hsort).1 e he
          simp only at hk1
          rw [← hk1, ← hk2]
          exact le_of_lt hlt
        have hsum : crossingSum o ((k, lvl) :: tl) = 0 := by
          unfold crossingSum
          rw [List.filter_cons_of_neg (by simp [hstop])]
          rw [List.filter_eq_nil_iff.mpr
            (by intro e he; simp [hallstop e he])]
          simp
        have hwalk : liquidityWalk o ((k, lvl) :: tl) acc = false := by
          simp only [liquidityWalk, hstop, if_true]
        rw [hwalk, hsum]
        constructor
        · intro h
          exact absurd h (by simp)
        · intro h
          exact absurd h (by linarith)
      · have hsum : crossingSum o ((k, lvl) :: tl) =
            lvl.totalVisibleQuantity + crossingSum o tl := by
          unfold crossingSum
          rw [List.filter_cons_of_pos (by simp [hstop])]
          simp [List.sum_cons]
        by_cases hge : acc + lvl.totalVisibleQuantity ≥ o.remainingQuantity
        · have hwalk : liquidityWalk o ((k, lvl) :: tl) acc = true := by
            simp only [liquidityWalk, hstop, if_false, if_pos hge]
            rfl
          rw [hwalk, hsum]
          have hcs : 0 ≤ crossingSum o tl :=
            crossingSum_nonneg o tl
              (fun e he => hnn e (List.mem_cons_of_mem _ he))
          constructor
          · intro _
            linarith
          · intro _
            rfl
        · have hwalk : liquidityWalk o ((k, lvl) :: tl) acc =
              liquidityWalk o tl (acc + lvl.totalVisibleQuantity) := by
            simp only [liquidityWalk, hstop, if_false, if_neg hge]
            rfl
          have hih := ih (acc + lvl.totalVisibleQuantity)
            (List.pairwise_cons.mp hsort).2
            (fun e he => hkey e (List.mem_cons_of_mem _ he))
            (fun e he => hnn e (List.mem_cons_of_mem _ he))
            (by push_neg at hge; exact hge)
          rw [hwalk, hsum, hih]
          constructor <;> intro h <;> linarith

end Book

end HyperEvm

namespace HyperEvm

namespace Book

/-- The fields of a freshly created order, in terms of the request. -/
theorem createOrder_fields (b : Book) (g : IdGen) (request : OrderRequest)
    (ts : ℕ) :
    (createOrder b g request ts).1.side = request.side ∧
    (createOrder b g request ts).1.kind = request.kind ∧
    (createOrder b g request ts).1.price = request.price ∧
    (createOrder b g request ts).1.remainingQuantity = request.quantity ∧
    (createOrder b g request ts).1.timeInForce =
      resolveTimeInForce request.kind request.timeInForce ∧
    (createOrder b g request ts).2.1 =
      { b with sequence := b.sequence + 1 } := by
  unfold createOrder
  cases hid : request.id <;> exact ⟨rfl, rfl, rfl, rfl, rfl, rfl⟩

/-- Bumping the sequence does not affect the liquidity check. -/
theorem hasEnoughLiquidity_seqBump (b : Book) (o : BookOrder) (n : ℕ) :
    hasEnoughLiquidity { b with sequence := n } o =
      hasEnoughLiquidity b o := by
  unfold hasEnoughLiquidity
  cases hs : o.side <;> rfl

/-- `hasEnoughLiquidity` on a well-formed book holds exactly when the
crossing visible quantity covers the order's remaining quantity. -/
theorem hasEnoughLiquidity_iff (b : Book) (o : BookOrder) (hwf : BookWF b)
    (hrem : 0 < o.remainingQuantity) :
    (hasEnoughLiquidity b o = true ↔
      o.remainingQuantity ≤ fokCrossingSum b o) := by
  have hside := sideWF_indexForSide b hwf (oppositeSide o.side)
  have h := liquidityWalk_iff o (indexForSide b (oppositeSide o.side)) 0
    hside.1
    (fun e he => (hside.2 e he).1)
    (fun e he => levelWF_tv_nonneg e.2 (hside.2 e he).2.1)
    hrem
  unfold hasEnoughLiquidity fokCrossingSum
  rw [h]
  constructor <;> intro h2 <;> linarith

end Book

end HyperEvm

namespace HyperEvm

/-! ## C4 -/

/-- C4: for every FOK submission that passes validation, `submitOrder`
returns a `REJECTED` order with reason `insufficient_liquidity_for_fok`,
no trades, exactly one event, and unchanged orders and price levels, if
and only if the sum of `totalVisibleQuantity` over opposite-side levels
that cross the order's price (all opposite levels for a market order) is
strictly less than the order's remaining quantity.  The sum counts
visible quantity only, so hidden iceberg reserves are never counted. -/
theorem c4_fok_liquidity_iff (b : Book) (g : IdGen) (request : OrderRequest)
    (nowMs : ℕ) (hwf : BookWF b)
    (hv : Book.validateRequest b request = Option.none)
    (hfok : Book.resolveTimeInForce request.kind request.timeInForce =
      TimeInForce.FOK) :
    ((Book.submitOrder b g request nowMs).1.order.status =
        OrderStatus.rejected ∧
     (Book.submitOrder b g request nowMs).1.trades = [] ∧
     (Book.submitOrder b g request nowMs).1.events.map
        (fun e => (e.status, e.reason)) =
       [(OrderStatus.rejected, some "insufficient_liquidity_for_fok")] ∧
     (Book.submitOrder b g request nowMs).2.1.bids = b.bids ∧
     (Book.submitOrder b g request nowMs).2.1.asks = b.asks ∧
     (Book.submitOrder b g request nowMs).2.1.ordersById = b.ordersById)
    ↔ Book.fokCrossingSum b (Book.createOrder b g request nowMs).1 <
        (Book.createOrder b g request nowMs).1.remainingQuantity := by
  obtain ⟨hside, hkind, hprice, hrem, htif, hb1⟩ :=
    Book.createOrder_fields b g request nowMs
  have hremPos : 0 <
      (Book.createOrder b g request nowMs).1.remainingQuantity := by
    rw [hrem]
    exact Book.validate_quantity_pos b request hv
  have hliqIff := Book.hasEnoughLiquidity_iff b
    (Book.createOrder b g request nowMs).1 hwf hremPos
  unfold Book.submitOrder
  simp only [hv]
  rcases hM : Book.matchIncomingOrder ({ b with sequence := b.sequence + 1 })
      (Book.createOrder b g request nowMs).2.2
      (Book.createOrder b g request nowMs).1 nowMs
    with ⟨g2, b2, order2, resultTrades, resultEvents⟩
  by_cases hliq : Book.hasEnoughLiquidity b
      (Book.createOrder b g request nowMs).1 = true
  · have hnFok : ¬ ((Book.createOrder b g request nowMs).1.timeInForce
        = TimeInForce.FOK ∧
        ¬ Book.hasEnoughLiquidity (Book.createOrder b g request nowMs).2.1
          (Book.createOrder b g request nowMs).1) := by
      intro hc
      apply hc.2
      rw [hb1, Book.hasEnoughLiquidity_seqBump]
      exact hliq
    have hRHS : ¬ (Book.fokCrossingSum b
        (Book.createOrder b g request nowMs).1 <
        (Book.createOrder b g request nowMs).1.remainingQuantity) :=
      not_lt.mpr (hliqIff.mp hliq)
    simp only [Book.createOrder, Book.createOrderEvent] at hnFok hM hRHS ⊢
    rw [if_neg hnFok]
    simp only [hM]
    by_cases hrem2 : order2.remainingQuantity > 0
    · rw [if_pos hrem2]
      by_cases hgtc : (order2.kind = OrderKind.limit ∧
          order2.timeInForce = TimeInForce.GTC)
      · rw [if_pos hgtc]
        refine iff_of_false (fun hc => ?_) hRHS
        have h1 := hc.1
        split at h1 <;> simp at h1
      · rw [if_neg hgtc]
        refine iff_of_false (fun hc => ?_) hRHS
        have h1 := hc.1
        simp at h1
    · rw [if_neg hrem2]
      refine iff_of_false (fun hc => ?_) hRHS
      have h1 := hc.1
      simp at h1
  · have hFok : ((Book.createOrder b g request nowMs).1.timeInForce
        = TimeInForce.FOK ∧
        ¬ Book.hasEnoughLiquidity (Book.createOrder b g request nowMs).2.1
          (Book.createOrder b g request nowMs).1) := by
      constructor
      · rw [htif]
        exact hfok
      · rw [hb1, Book.hasEnoughLiquidity_seqBump]
        exact hliq
    have hRHS : Book.fokCrossingSum b
        (Book.createOrder b g request nowMs).1 <
        (Book.createOrder b g request nowMs).1.remainingQuantity := by
      by_contra hc
      exact hliq (hliqIff.mpr (not_lt.mp hc))
    simp only [Book.createOrder, Book.createOrderEvent] at hFok hRHS ⊢
    rw [if_pos hFok]
    exact iff_of_true ⟨rfl, rfl, rfl, rfl, rfl, rfl⟩ hRHS

end HyperEvm

namespace HyperEvm

/-- A FOK buy for 10 at 101 (more than the 5 visible at 101). -/
def c4Req : OrderRequest :=
  sampleReq "f" "fu" .buy .limit 10 (some 101) (some .FOK)

attribute [local semireducible] Rat.sub Rat.add Rat.mul Rat.inv
  Rat.ofScientific in
/-- C4 witness: against the book with one resting sell of 5 at 101, a
FOK buy for 10 at 101 passes validation, resolves to FOK, and the
rejection/liquidity equivalence holds concretely. -/
theorem c4_witness :
    BookWF oneMakerBook ∧
    Book.validateRequest oneMakerBook c4Req = Option.none ∧
    Book.resolveTimeInForce c4Req.kind c4Req.timeInForce =
      TimeInForce.FOK ∧
    (((Book.submitOrder oneMakerBook oneMakerGen c4Req 2).1.order.status =
        OrderStatus.rejected ∧
     (Book.submitOrder oneMakerBook oneMakerGen c4Req 2).1.trades = [] ∧
     (Book.submitOrder oneMakerBook oneMakerGen c4Req 2).1.events.map
        (fun e => (e.status, e.reason)) =
       [(OrderStatus.rejected, some "insufficient_liquidity_for_fok")] ∧
     (Book.submitOrder oneMakerBook oneMakerGen c4Req 2).2.1.bids =
       oneMakerBook.bids ∧
     (Book.submitOrder oneMakerBook oneMakerGen c4Req 2).2.1.asks =
       oneMakerBook.asks ∧
     (Book.submitOrder oneMakerBook oneMakerGen c4Req 2).2.1.ordersById =
       oneMakerBook.ordersById)
    ↔ Book.fokCrossingSum oneMakerBook
        (Book.createOrder oneMakerBook oneMakerGen c4Req 2).1 <
        (Book.createOrder oneMakerBook oneMakerGen c4Req 2).1.remainingQuantity) :=
  ⟨reachable_WF oneMakerBook
      (Reachable.submit sampleBook sampleGen
        (sampleReq "m" "mu" .sell .limit 5 (some 101) Option.none) 1
        (Reachable.init "ETH-USD" sampleOpts)),
   by decide, by decide,
   c4_fok_liquidity_iff oneMakerBook oneMakerGen c4Req 2
     (reachable_WF oneMakerBook
       (Reachable.submit sampleBook sampleGen
         (sampleReq "m" "mu" .sell .limit 5 (some 101) Option.none) 1
         (Reachable.init "ETH-USD" sampleOpts)))
     (by decide) (by decide)⟩

end HyperEvm

namespace HyperEvm

/-- Two books that agree on everything the matching and depth logic
reads: the trade and event rings (whose entries embed generated ids) are
unconstrained. -/
def BookSim (a c : Book) : Prop :=
  a.symbol = c.symbol ∧ a.options = c.options ∧ a.bids = c.bids ∧
  a.asks = c.asks ∧ a.ordersById = c.ordersById ∧
  a.sequence = c.sequence ∧ a.nextNodeId = c.nextNodeId

/-- Two order events that agree on everything except the generated
`eventId`. -/
def EventSim (x y : OrderEvent) : Prop :=
  x.orderId = y.orderId ∧ x.symbol = y.symbol ∧ x.status = y.status ∧
  x.reason = y.reason ∧ x.remainingQuantity = y.remainingQuantity ∧
  x.timestampMs = y.timestampMs ∧ x.sequence = y.sequence

namespace Book

theorem indexForSide_sim (a c : Book) (h : BookSim a c) (s : Side) :
    indexForSide a s = indexForSide c s := by
  cases s
  · exact h.2.2.1
  · exact h.2.2.2.1

theorem getBest_sim (a c : Book) (h : BookSim a c) (s : Side) :
    getBestOppositeLevel a s = getBestOppositeLevel c s := by
  cases s <;> unfold getBestOppositeLevel
  · rw [h.2.2.2.1]
  · rw [h.2.2.1]

theorem matchFuel_sim (a c : Book) (h : BookSim a c) (s : Side) :
    matchFuel a s = matchFuel c s := by
  unfold matchFuel
  rw [indexForSide_sim a c h]

theorem sim_setIndexForSide (a c : Book) (h : BookSim a c) (s : Side)
    (idx : SideIndex) :
    BookSim (setIndexForSide a s idx) (setIndexForSide c s idx) := by
  obtain ⟨h1, h2, h3, h4, h5, h6, h7⟩ := h
  cases s <;> exact ⟨h1, h2, by simp [setIndexForSide, h3],
    by simp [setIndexForSide, h4], h5, h6, h7⟩

theorem sim_setLevel (a c : Book) (h : BookSim a c) (s : Side) (p : ℚ)
    (l : PriceLevel) : BookSim (setLevel a s p l) (setLevel c s p l) := by
  unfold setLevel
  rw [indexForSide_sim a c h]
  exact sim_setIndexForSide a c h s _

theorem sim_removeLevel (a c : Book) (h : BookSim a c) (s : Side) (p : ℚ) :
    BookSim (removeLevel a s p) (removeLevel c s p) := by
  unfold removeLevel
  rw [indexForSide_sim a c h]
  exact sim_setIndexForSide a c h s _

theorem sim_removeOrderFromBook (a c : Book) (h : BookSim a c)
    (orderId : String) (node : OrderQueueNode) (lvl : PriceLevel)
    (side : Side) :
    BookSim (removeOrderFromBook a orderId node lvl side)
      (removeOrderFromBook c orderId node lvl side) := by
  unfold removeOrderFromBook
  have hb' := sim_setLevel a c h side (lvl.remove node).price (lvl.remove node)
  obtain ⟨h1, h2, h3, h4, h5, h6, h7⟩ := hb'
  have hmid : BookSim
      { setLevel a side (lvl.remove node).price (lvl.remove node) with
          ordersById := mapDel (setLevel a side (lvl.remove node).price
            (lvl.remove node)).ordersById orderId }
      { setLevel c side (lvl.remove node).price (lvl.remove node) with
          ordersById := mapDel (setLevel c side (lvl.remove node).price
            (lvl.remove node)).ordersById orderId } :=
    ⟨h1, h2, h3, h4, by rw [h5], h6, h7⟩
  by_cases he : (lvl.remove node).isEmpty = true
  · rw [if_pos he, if_pos he]
    exact sim_removeLevel _ _ hmid side _
  · rw [if_neg he, if_neg he]
    exact hmid

theorem sim_createOrderEvent (a c : Book) (h : BookSim a c) (g g' : IdGen)
    (o : BookOrder) (st : OrderStatus) (r : Option String) (ts : ℕ) :
    BookSim (createOrderEvent a g o st r ts).2.1
        (createOrderEvent c g' o st r ts).2.1 ∧
      EventSim (createOrderEvent a g o st r ts).1
        (createOrderEvent c g' o st r ts).1 := by
  obtain ⟨h1, h2, h3, h4, h5, h6, h7⟩ := h
  simp only [createOrderEvent, buildId]
  exact ⟨⟨h1, h2, h3, h4, h5, by simp [h6], h7⟩,
    ⟨rfl, rfl, rfl, rfl, rfl, rfl, by simp [h6]⟩⟩

theorem sim_addOrderToBook (a c : Book) (h : BookSim a c) (o : BookOrder) :
    BookSim (addOrderToBook a o) (addOrderToBook c o) := by
  obtain ⟨h1, h2, h3, h4, h5, h6, h7⟩ := h
  rcases hp : o.price with _ | price
  · simp only [addOrderToBook, hp]
    exact ⟨h1, h2, h3, h4, h5, h6, h7⟩
  · simp only [addOrderToBook, hp]
    rw [indexForSide_sim a c ⟨h1, h2, h3, h4, h5, h6, h7⟩ o.side]
    rw [h7]
    have hb' := sim_setIndexForSide a c ⟨h1, h2, h3, h4, h5, h6, h7⟩ o.side
      (SideIndex.upsert (indexForSide c o.side)
        (toInternalPrice o.side price)
        ((match SideIndex.get (indexForSide c o.side)
            (toInternalPrice o.side price) with
          | some l => l
          | Option.none => PriceLevel.mk0 price).append
          { nodeId := c.nextNodeId, order := o }))
    obtain ⟨g1, g2, g3, g4, g5, g6, g7⟩ := hb'
    exact ⟨g1, g2, g3, g4, by rw [g5], g6, rfl⟩

theorem sim_resolveSelfTradePrevention (a c : Book) (h : BookSim a c)
    (g g' : IdGen) (taker maker : BookOrder) (node : OrderQueueNode)
    (lvl : PriceLevel) (ts : ℕ) :
    (resolveSelfTradePrevention a g taker maker node lvl ts).1 =
      (resolveSelfTradePrevention c g' taker maker node lvl ts).1 ∧
    BookSim (resolveSelfTradePrevention a g taker maker node lvl ts).2.1
      (resolveSelfTradePrevention c g' taker maker node lvl ts).2.1 := by
  unfold resolveSelfTradePrevention
  by_cases hu : taker.userId ≠ maker.userId
  · rw [if_pos hu, if_pos hu]
    exact ⟨rfl, h⟩
  · rw [if_neg hu, if_neg hu]
    rcases hstp : taker.selfTradePrevention with _ | _ | _ | _
    · exact ⟨rfl, h⟩
    · exact ⟨rfl, h⟩
    · have hrm := sim_removeOrderFromBook a c h maker.id node lvl maker.side
      have hev := sim_createOrderEvent _ _ hrm g g'
        { maker with status := .canceled, updatedAtMs := ts } .canceled
        (some "self_trade_prevention_cancel_oldest") ts
      simp only [createOrderEvent, buildId] at hev ⊢
      exact ⟨trivial, hev.1⟩
    · have hrm := sim_removeOrderFromBook a c h maker.id node lvl maker.side
      have hev := sim_createOrderEvent _ _ hrm g g'
        { maker with status := .canceled, updatedAtMs := ts } .canceled
        (some "self_trade_prevention_cancel_both") ts
      simp only [createOrderEvent, buildId] at hev ⊢
      exact ⟨trivial, hev.1⟩

end Book

end HyperEvm

namespace HyperEvm

/-- Appending related elements preserves elementwise relatedness. -/
theorem forall2_concat {R : OrderEvent → OrderEvent → Prop}
    {l l' : List OrderEvent} {x y : OrderEvent}
    (h : List.Forall₂ R l l') (hxy : R x y) :
    List.Forall₂ R (l ++ [x]) (l' ++ [y]) :=
  List.rel_append h (List.Forall₂.cons hxy List.Forall₂.nil)

namespace Book

/-- Nested sequence-bump and trades write preserve `BookSim`. -/
theorem sim_bump (a c : Book) (h : BookSim a c)
    (tA tC : List TradeRecord) :
    BookSim { a with sequence := a.sequence + 1, trades := tA }
      { c with sequence := c.sequence + 1, trades := tC } := by
  obtain ⟨h1, h2, h3, h4, h5, h6, h7⟩ := h
  exact ⟨h1, h2, h3, h4, h5, by simp [h6], h7⟩

/-- Two runs of the matching loop from books that agree on everything
but the trade/event rings, with arbitrary id streams, stay in lockstep:
books remain related, the taker results are equal, and the trade/event
accumulators stay length-matched / elementwise similar. -/
theorem matchLoop_sim (nowMs : ℕ) : ∀ (fuel : ℕ) (g g' : IdGen)
    (a c : Book) (taker : BookOrder) (tr tr' : List TradeRecord)
    (ev ev' : List OrderEvent),
    BookSim a c → tr.length = tr'.length → List.Forall₂ EventSim ev ev' →
    BookSim (matchLoop nowMs fuel g a taker tr ev).2.1
        (matchLoop nowMs fuel g' c taker tr' ev').2.1 ∧
    (matchLoop nowMs fuel g a taker tr ev).2.2.1 =
      (matchLoop nowMs fuel g' c taker tr' ev').2.2.1 ∧
    (matchLoop nowMs fuel g a taker tr ev).2.2.2.1.length =
      (matchLoop nowMs fuel g' c taker tr' ev').2.2.2.1.length ∧
    List.Forall₂ EventSim (matchLoop nowMs fuel g a taker tr ev).2.2.2.2
      (matchLoop nowMs fuel g' c taker tr' ev').2.2.2.2 := by
  intro fuel
  induction fuel with
  | zero =>
      intro g g' a c taker tr tr' ev ev' hsim hlen hev
      exact ⟨hsim, rfl, hlen, hev⟩
  | succ n ih =>
    intro g g' a c taker tr tr' ev ev' hsim hlen hev
    simp only [matchLoop]
    by_cases hrem : ¬ taker.remainingQuantity > 0
    · rw [if_pos hrem, if_pos hrem]
      exact ⟨hsim, rfl, hlen, hev⟩
    rw [if_neg hrem, if_neg hrem]
    have hbEq := getBest_sim a c hsim taker.side
    rw [← hbEq]
    rcases hbest : getBestOppositeLevel a taker.side with _ | bestLevel
    · simp only [hbest]
      exact ⟨hsim, trivial, hlen, hev⟩
    simp only [hbest]
    by_cases hcross : stopsCrossing taker bestLevel.price = true
    · rw [if_pos hcross, if_pos hcross]
      exact ⟨hsim, rfl, hlen, hev⟩
    rw [if_neg hcross, if_neg hcross]
    rcases hq : bestLevel.queue with _ | ⟨makerNode, restQ⟩
    · simp only [hq]
      exact ih _ _ _ _ taker tr tr' ev ev'
        (sim_removeLevel a c hsim _ _) hlen hev
    simp only [hq]
    rcases hstpA : resolveSelfTradePrevention a g taker makerNode.order
        makerNode bestLevel nowMs with ⟨outA, bA, gA⟩
    rcases hstpC : resolveSelfTradePrevention c g' taker makerNode.order
        makerNode bestLevel nowMs with ⟨outC, bC, gC⟩
    have hstp := sim_resolveSelfTradePrevention a c hsim g g' taker
      makerNode.order makerNode bestLevel nowMs
    rw [hstpA, hstpC] at hstp
    obtain ⟨hout, hbsim⟩ := hstp
    simp only at hout hbsim
    subst hout
    simp only [hstpA, hstpC]
    rcases outA with _ | _ | _ | _
    · -- proceed
      by_cases hexec : min taker.remainingQuantity
          makerNode.order.displayedRemainingQuantity ≤ 0
      · rw [if_pos hexec, if_pos hexec]
        exact ⟨hsim, rfl, hlen, hev⟩
      rw [if_neg hexec, if_neg hexec]
      rcases htA : createTradeRecord { a with sequence := a.sequence + 1 } g
          makerNode.order taker (min taker.remainingQuantity
            makerNode.order.displayedRemainingQuantity) bestLevel.price nowMs
          (a.sequence + 1) with ⟨tradeA, g1A⟩
      rcases htC : createTradeRecord { c with sequence := c.sequence + 1 } g'
          makerNode.order taker (min taker.remainingQuantity
            makerNode.order.displayedRemainingQuantity) bestLevel.price nowMs
          (c.sequence + 1) with ⟨tradeC, g1C⟩
      simp only [htA, htC]
      have hb2 : BookSim
          { a with
              sequence := a.sequence + 1
              trades := ({ a with sequence := a.sequence + 1 }).trades ++
                [tradeA] }
          { c with
              sequence := c.sequence + 1
              trades := ({ c with sequence := c.sequence + 1 }).trades ++
                [tradeC] } := sim_bump a c hsim _ _
      have hlen1 : (tr ++ [tradeA]).length = (tr' ++ [tradeC]).length := by
        simp [hlen]
      split
      · -- maker filled and removed
        exact ih _ _ _ _ _ _ _ _ _
          (sim_createOrderEvent _ _
            (sim_removeOrderFromBook _ _
              (sim_setLevel _ _ hb2 _ _ _) _ _ _ _) _ _ _ _ _ _).1
          hlen1
          (forall2_concat hev
            (sim_createOrderEvent _ _
              (sim_removeOrderFromBook _ _
                (sim_setLevel _ _ hb2 _ _ _) _ _ _ _) _ _ _ _ _ _).2)
      · -- maker stays
        split
        · -- iceberg replenish
          exact ih _ _ _ _ _ _ _ _ _
            (sim_setLevel _ _ hb2 _ _ _) hlen1 hev
        · -- plain resting update
          exact ih _ _ _ _ _ _ _ _ _
            (sim_setLevel _ _ hb2 _ _ _) hlen1 hev
    · -- skipMaker
      exact ih _ _ _ _ taker tr tr' ev ev' hbsim hlen hev
    · -- cancelTaker
      rcases hceA : createOrderEvent bA gA { taker with status := .canceled }
          .canceled (some "self_trade_prevention_cancel_newest") nowMs
        with ⟨evA, b1A, g1A⟩
      rcases hceC : createOrderEvent bC gC { taker with status := .canceled }
          .canceled (some "self_trade_prevention_cancel_newest") nowMs
        with ⟨evC, b1C, g1C⟩
      have hce := sim_createOrderEvent bA bC hbsim gA gC
        { taker with status := .canceled } .canceled
        (some "self_trade_prevention_cancel_newest") nowMs
      rw [hceA, hceC] at hce
      simp only [hceA, hceC]
      exact ⟨hce.1, trivial, hlen, forall2_concat hev hce.2⟩
    · -- cancelBothSides
      rcases hceA : createOrderEvent bA gA { taker with status := .canceled }
          .canceled (some "self_trade_prevention_cancel_both") nowMs
        with ⟨evA, b1A, g1A⟩
      rcases hceC : createOrderEvent bC gC { taker with status := .canceled }
          .canceled (some "self_trade_prevention_cancel_both") nowMs
        with ⟨evC, b1C, g1C⟩
      have hce := sim_createOrderEvent bA bC hbsim gA gC
        { taker with status := .canceled } .canceled
        (some "self_trade_prevention_cancel_both") nowMs
      rw [hceA, hceC] at hce
      simp only [hceA, hceC]
      exact ⟨hce.1, trivial, hlen, forall2_concat hev hce.2⟩

end Book

end HyperEvm

namespace HyperEvm

namespace Book

/-- Validation reads only the symbol and options, which `BookSim`
preserves. -/
theorem validateRequest_sim (a c : Book) (h : BookSim a c)
    (r : OrderRequest) : validateRequest a r = validateRequest c r := by
  obtain ⟨h1, h2, -, -, -, -, -⟩ := h
  unfold validateRequest validateLimitPrice validateMinQuantity
    validateIceberg
  rw [h1, h2]

/-- The FOK liquidity check reads only the side indices. -/
theorem hasEnoughLiquidity_sim (a c : Book) (h : BookSim a c)
    (o : BookOrder) : hasEnoughLiquidity a o = hasEnoughLiquidity c o := by
  unfold hasEnoughLiquidity
  rw [indexForSide_sim a c h]

/-- Two runs of `matchIncomingOrder` from related books with the same
taker stay in lockstep. -/
theorem matchIncomingOrder_sim (a c : Book) (h : BookSim a c)
    (g g' : IdGen) (taker : BookOrder) (nowMs : ℕ) :
    BookSim (matchIncomingOrder a g taker nowMs).2.1
        (matchIncomingOrder c g' taker nowMs).2.1 ∧
    (matchIncomingOrder a g taker nowMs).2.2.1 =
      (matchIncomingOrder c g' taker nowMs).2.2.1 ∧
    (matchIncomingOrder a g taker nowMs).2.2.2.1.length =
      (matchIncomingOrder c g' taker nowMs).2.2.2.1.length ∧
    List.Forall₂ EventSim (matchIncomingOrder a g taker nowMs).2.2.2.2
      (matchIncomingOrder c g' taker nowMs).2.2.2.2 := by
  unfold matchIncomingOrder
  rw [matchFuel_sim a c h taker.side]
  exact matchLoop_sim nowMs _ g g' a c taker [] [] [] [] h rfl
    List.Forall₂.nil

end Book

end HyperEvm

namespace HyperEvm

namespace Book

/-- A freshly created order depends on the book only through its options
and sequence; with a caller-supplied id the id stream is untouched. -/
theorem createOrder_sim (a c : Book) (h : BookSim a c) (g g' : IdGen)
    (request : OrderRequest) (ts : ℕ) (i : String)
    (hid : request.id = some i) :
    (createOrder a g request ts).1 = (createOrder c g' request ts).1 ∧
    BookSim (createOrder a g request ts).2.1
      (createOrder c g' request ts).2.1 := by
  obtain ⟨h1, h2, h3, h4, h5, h6, h7⟩ := h
  simp only [createOrder, hid]
  exact ⟨by rw [h2, h6], ⟨h1, h2, h3, h4, h5, by rw [h6], h7⟩⟩

/-- Two runs of `submitOrder` with the same request carrying a
caller-supplied id, from related books, return the same order, similar
events, and related books. -/
theorem submitOrder_sim (a c : Book) (h : BookSim a c) (g g' : IdGen)
    (request : OrderRequest) (nowMs : ℕ) (i : String)
    (hid : request.id = some i) :
    (submitOrder a g request nowMs).1.order =
      (submitOrder c g' request nowMs).1.order ∧
    List.Forall₂ EventSim (submitOrder a g request nowMs).1.events
      (submitOrder c g' request nowMs).1.events ∧
    BookSim (submitOrder a g request nowMs).2.1
      (submitOrder c g' request nowMs).2.1 := by
  obtain ⟨horder, hbook⟩ := createOrder_sim a c h g g' request nowMs i hid
  unfold submitOrder
  rw [validateRequest_sim a c h request]
  rcases hv : validateRequest c request with _ | reason
  · simp only [hv]
    rw [horder]
    have hHE := hasEnoughLiquidity_sim _ _ hbook
    rw [hHE]
    split
    · rename_i hFok
      exact ⟨rfl,
        List.Forall₂.cons (sim_createOrderEvent _ _ hbook _ _ _ _ _ _).2
          List.Forall₂.nil,
        (sim_createOrderEvent _ _ hbook _ _ _ _ _ _).1⟩
    · rename_i hFok
      obtain ⟨hMb, hMo, hMt, hMe⟩ := matchIncomingOrder_sim _ _ hbook
        (createOrder a g request nowMs).2.2
        (createOrder c g' request nowMs).2.2
        (createOrder c g' request nowMs).1 nowMs
      rw [hMo]
      split
      · rename_i hrem2
        split
        · rename_i hgtc
          exact ⟨rfl,
            forall2_concat hMe
              (sim_createOrderEvent _ _ (sim_addOrderToBook _ _ hMb _)
                _ _ _ _ _ _).2,
            (sim_createOrderEvent _ _ (sim_addOrderToBook _ _ hMb _)
              _ _ _ _ _ _).1⟩
        · rename_i hgtc
          exact ⟨rfl,
            forall2_concat hMe
              (sim_createOrderEvent _ _ hMb _ _ _ _ _ _).2,
            (sim_createOrderEvent _ _ hMb _ _ _ _ _ _).1⟩
      · rename_i hrem2
        exact ⟨rfl,
          forall2_concat hMe
            (sim_createOrderEvent _ _ hMb _ _ _ _ _ _).2,
          (sim_createOrderEvent _ _ hMb _ _ _ _ _ _).1⟩
  · simp only [hv]
    rw [horder]
    exact ⟨rfl,
      List.Forall₂.cons (sim_createOrderEvent _ _ hbook _ _ _ _ _ _).2
        List.Forall₂.nil,
      (sim_createOrderEvent _ _ hbook _ _ _ _ _ _).1⟩

/-- Two runs of `cancelOrder` with the same arguments from related
books agree on success and keep the books related. -/
theorem cancelOrder_sim (a c : Book) (h : BookSim a c) (g g' : IdGen)
    (orderId : String) (userId : Option String) (nowMs : ℕ) :
    (cancelOrder a g orderId userId nowMs).1.canceled =
      (cancelOrder c g' orderId userId nowMs).1.canceled ∧
    BookSim (cancelOrder a g orderId userId nowMs).2.1
      (cancelOrder c g' orderId userId nowMs).2.1 := by
  obtain ⟨h1, h2, h3, h4, h5, h6, h7⟩ := h
  unfold cancelOrder
  rw [h5]
  rcases href : mapGet c.ordersById orderId with _ | ref
  · simp only [href]
    exact ⟨trivial, h1, h2, h3, h4, h5, h6, h7⟩
  simp only [href]
  rw [indexForSide_sim a c ⟨h1, h2, h3, h4, h5, h6, h7⟩ ref.side]
  rcases hlvl : SideIndex.get (indexForSide c ref.side)
      (toInternalPrice ref.side ref.price) with _ | lvl
  · simp only [hlvl]
    exact ⟨trivial, h1, h2, h3, h4, h5, h6, h7⟩
  simp only [hlvl]
  rcases hnode : lvl.queue.find? (fun n => n.nodeId = ref.nodeId)
      with _ | node
  · simp only [hnode]
    exact ⟨trivial, h1, h2, h3, h4, h5, h6, h7⟩
  simp only [hnode]
  split
  · exact ⟨rfl, h1, h2, h3, h4, h5, h6, h7⟩
  · have hB1 := sim_setLevel a c ⟨h1, h2, h3, h4, h5, h6, h7⟩ ref.side
      lvl.price (lvl.remove node)
    obtain ⟨k1, k2, k3, k4, k5, k6, k7⟩ := hB1
    have hB2 : BookSim
        { setLevel a ref.side lvl.price (lvl.remove node) with
            ordersById := mapDel (setLevel a ref.side lvl.price
              (lvl.remove node)).ordersById orderId }
        { setLevel c ref.side lvl.price (lvl.remove node) with
            ordersById := mapDel (setLevel c ref.side lvl.price
              (lvl.remove node)).ordersById orderId } :=
      ⟨k1, k2, k3, k4, by rw [k5], k6, k7⟩
    split
    · exact ⟨rfl,
        (sim_createOrderEvent _ _ (sim_removeLevel _ _ hB2 _ _)
          _ _ _ _ _ _).1⟩
    · exact ⟨rfl, (sim_createOrderEvent _ _ hB2 _ _ _ _ _ _).1⟩

end Book

end HyperEvm

namespace HyperEvm

/-- Engines that agree on configuration, on every symbol's book up to
the trade/event rings, and on the order→symbol map; id streams, logs
and counters are unconstrained. -/
def EngineSim (a c : Engine) : Prop :=
  a.config = c.config ∧
  List.Forall₂ (fun x y => x.1 = y.1 ∧ BookSim x.2 y.2) a.books c.books ∧
  a.orderToSymbol = c.orderToSymbol

/-- Depth snapshots agree on related books. -/
theorem book_getDepth_sim (a c : Book) (h : BookSim a c) (d : Option ℕ) :
    Book.getDepth a d = Book.getDepth c d := by
  obtain ⟨h1, h2, h3, h4, h5, h6, h7⟩ := h
  simp only [Book.getDepth, Book.collectDepth, Book.indexForSide, h2, h3, h4]

/-- Looking up a symbol in related book maps yields related books. -/
theorem mapGet_books_sim {la lc : List (String × Book)}
    (h : List.Forall₂ (fun x y => x.1 = y.1 ∧ BookSim x.2 y.2) la lc)
    (k : String) :
    (mapGet la k = Option.none ∧ mapGet lc k = Option.none) ∨
    ∃ bA bC, mapGet la k = some bA ∧ mapGet lc k = some bC ∧
      BookSim bA bC := by
  induction h with
  | nil => exact Or.inl ⟨rfl, rfl⟩
  | @cons x y tlA tlC hxy htl ih =>
      obtain ⟨hk, hb⟩ := hxy
      by_cases hx : x.1 = k
      · right
        refine ⟨x.2, y.2, ?_, ?_, hb⟩
        · simp [mapGet, List.find?, hx]
        · simp [mapGet, List.find?, hk ▸ hx]
      · have hy : ¬ y.1 = k := fun hc => hx (by rw [hk]; exact hc)
        simpa [mapGet, List.find?, hx, hy] using ih

/-- Writing related books at the same key preserves relatedness. -/
theorem mapSet_books_sim {la lc : List (String × Book)}
    (h : List.Forall₂ (fun x y => x.1 = y.1 ∧ BookSim x.2 y.2) la lc)
    (k : String) {bA bC : Book} (hb : BookSim bA bC) :
    List.Forall₂ (fun x y => x.1 = y.1 ∧ BookSim x.2 y.2)
      (mapSet la k bA) (mapSet lc k bC) := by
  induction h with
  | nil => exact List.Forall₂.cons ⟨rfl, hb⟩ List.Forall₂.nil
  | @cons x y tlA tlC hxy htl ih =>
      obtain ⟨hk, hkb⟩ := hxy
      by_cases hx : x.1 = k
      · have hy : y.1 = k := by rw [← hk]; exact hx
        simp only [mapSet, if_pos hx, if_pos hy]
        exact List.Forall₂.cons ⟨rfl, hb⟩ htl
      · have hy : ¬ y.1 = k := fun hc => hx (by rw [hk]; exact hc)
        simp only [mapSet, if_neg hx, if_neg hy]
        exact List.Forall₂.cons ⟨hk, hkb⟩ ih

/-- The order→symbol cleanup fold reads only event fields preserved by
`EventSim`. -/
theorem ots_fold_sim {evA evC : List OrderEvent}
    (h : List.Forall₂ EventSim evA evC) :
    ∀ acc : List (String × String),
    evA.foldl (fun acc ev =>
      if ev.status = OrderStatus.filled ∨ ev.status = OrderStatus.canceled ∨
          ev.status = OrderStatus.expired then
        mapDel acc ev.orderId
      else acc) acc =
    evC.foldl (fun acc ev =>
      if ev.status = OrderStatus.filled ∨ ev.status = OrderStatus.canceled ∨
          ev.status = OrderStatus.expired then
        mapDel acc ev.orderId
      else acc) acc := by
  induction h with
  | nil => intro acc; rfl
  | @cons x y tlA tlC hxy htl ih =>
      intro acc
      obtain ⟨ho, -, hs, -, -, -, -⟩ := hxy
      simp only [List.foldl_cons, hs, ho]
      exact ih _

end HyperEvm

namespace HyperEvm

/-- Applying the same submit command (id-carrying request) to related
engines — persisted or not — keeps them related. -/
theorem applySubmitOrder_sim (eA eC : Engine) (h : EngineSim eA eC)
    (cidA cidC : String) (ts : ℕ) (request : OrderRequest)
    (pA pC : Bool) (i : String) (hid : request.id = some i) :
    EngineSim (Engine.applySubmitOrder eA cidA ts request pA).2
      (Engine.applySubmitOrder eC cidC ts request pC).2 := by
  obtain ⟨h1, h2, h3⟩ := h
  cases pA <;> cases pC <;>
  · simp only [Engine.applySubmitOrder, if_true]
    first
    | rw [if_neg Bool.false_ne_true, if_neg Bool.false_ne_true]
    | rw [if_neg Bool.false_ne_true]
    | skip
    rcases mapGet_books_sim h2 request.symbol with ⟨hnA, hnC⟩ |
        ⟨bA, bC, hgA, hgC, hb⟩
    · simp only [hnA, hnC]
      exact ⟨h1, h2, h3⟩
    · simp only [hgA, hgC]
      obtain ⟨horder, hevents, hbook⟩ :=
        Book.submitOrder_sim bA bC hb eA.gen eC.gen request ts i hid
      rw [horder, h3]
      exact ⟨h1, mapSet_books_sim h2 request.symbol hbook, ots_fold_sim hevents _⟩

/-- Applying the same cancel command to related engines — persisted or
not — keeps them related. -/
theorem applyCancelOrder_sim (eA eC : Engine) (h : EngineSim eA eC)
    (cidA cidC : String) (ts : ℕ) (payload : CancelOrderPayload)
    (pA pC : Bool) :
    EngineSim (Engine.applyCancelOrder eA cidA ts payload pA).2
      (Engine.applyCancelOrder eC cidC ts payload pC).2 := by
  obtain ⟨h1, h2, h3⟩ := h
  cases pA <;> cases pC <;>
  · simp only [Engine.applyCancelOrder, if_true]
    first
    | rw [if_neg Bool.false_ne_true, if_neg Bool.false_ne_true]
    | rw [if_neg Bool.false_ne_true]
    | skip
    rw [h3]
    rcases hts : (match payload.symbol with
      | some s => some s
      | Option.none => mapGet eC.orderToSymbol payload.orderId)
      with _ | sym
    · simp only [hts]
      exact ⟨h1, h2, by simp [h3]⟩
    · simp only [hts]
      rcases mapGet_books_sim h2 sym with ⟨hnA, hnC⟩ |
          ⟨bA, bC, hgA, hgC, hb⟩
      · simp only [hnA, hnC]
        exact ⟨h1, h2, by simp [h3]⟩
      · simp only [hgA, hgC]
        obtain ⟨hcanc, hbook⟩ := Book.cancelOrder_sim bA bC hb eA.gen eC.gen
          payload.orderId payload.userId ts
        rw [hcanc]
        split
        · exact ⟨h1, mapSet_books_sim h2 sym hbook, rfl⟩
        · exact ⟨h1, mapSet_books_sim h2 sym hbook, rfl⟩

end HyperEvm

namespace HyperEvm

/-- An operation whose submit request carries a caller-supplied id
(cancels are unrestricted). -/
def opHasId : EngineOp → Prop
  | .submit r _ => ∃ i, r.id = some i
  | .cancel _ _ _ _ => True

/-- Fresh engines with the same configuration and seed are related for
any two id streams. -/
theorem init_sim (config : EngineConfig) (seed : ℕ) (gA gB : IdGen) :
    EngineSim (Engine.init config seed gA) (Engine.init config seed gB) := by
  refine ⟨rfl, ?_, rfl⟩
  apply List.forall₂_same.mpr
  intro x hx
  exact ⟨rfl, rfl, rfl, rfl, rfl, rfl, rfl, rfl⟩

/-- Depth snapshots agree on related engines. -/
theorem engine_getDepth_sim (a c : Engine) (h : EngineSim a c)
    (s : String) (d : Option ℕ) :
    Engine.getDepth a s d = Engine.getDepth c s d := by
  unfold Engine.getDepth
  rcases mapGet_books_sim h.2.1 s with ⟨hnA, hnC⟩ | ⟨bA, bC, hgA, hgC, hb⟩
  · rw [hnA, hnC]
  · rw [hgA, hgC]
    simp only [Option.map_some']
    rw [book_getDepth_sim bA bC hb d]

/-- The engine a replay step carries forward. -/
theorem replayStep_engine (acc : Engine × ℕ × ℕ) (c : EngineCommand) :
    (Engine.replayStep acc c).1 =
      match c with
      | .submitOrderCmd cid ts req =>
          (Engine.applySubmitOrder acc.1 cid ts req false).2
      | .cancelOrderCmd cid ts p =>
          (Engine.applyCancelOrder acc.1 cid ts p false).2 := by
  rcases c with ⟨cid, ts, req⟩ | ⟨cid, ts, p⟩
  · simp only [Engine.replayStep]
    rcases happ : Engine.applySubmitOrder acc.1 cid ts req false
      with ⟨res, e2⟩
    simp only [happ]
    cases res <;> rfl
  · simp only [Engine.replayStep]
    rcases happ : Engine.applyCancelOrder acc.1 cid ts p false
      with ⟨res, e2⟩
    simp only [happ]
    cases res <;> rfl

/-- A persisted submit appends exactly its command to the command view
of the log. -/
theorem commandsOfLog_applySubmit (e : Engine) (cid : String) (ts : ℕ)
    (req : OrderRequest) :
    Engine.commandsOfLog (Engine.applySubmitOrder e cid ts req true).2.log =
      Engine.commandsOfLog e.log ++
        [EngineCommand.submitOrderCmd cid ts req] := by
  unfold Engine.applySubmitOrder
  rw [if_pos rfl]
  rcases hb : mapGet ({ e with log := e.log ++
      [EngineLogEntry.commandRecord ts
        (EngineCommand.submitOrderCmd cid ts req)] }).books req.symbol
    with _ | book
  · simp only [hb]
    simp [Engine.commandsOfLog, List.filterMap_append]
  · simp only [hb]
    simp [Engine.commandsOfLog, List.filterMap_append]

/-- A persisted cancel appends exactly its command to the command view
of the log. -/
theorem commandsOfLog_applyCancel (e : Engine) (cid : String) (ts : ℕ)
    (p : CancelOrderPayload) :
    Engine.commandsOfLog (Engine.applyCancelOrder e cid ts p true).2.log =
      Engine.commandsOfLog e.log ++
        [EngineCommand.cancelOrderCmd cid ts p] := by
  unfold Engine.applyCancelOrder
  rw [if_pos rfl]
  rcases hts : (match p.symbol with
    | some s => some s
    | Option.none => mapGet ({ e with log := e.log ++
        [EngineLogEntry.commandRecord ts
          (EngineCommand.cancelOrderCmd cid ts p)] }).orderToSymbol
        p.orderId) with _ | sym
  · simp only [hts]
    simp [Engine.commandsOfLog, List.filterMap_append]
  · simp only [hts]
    rcases hb : mapGet ({ e with log := e.log ++
        [EngineLogEntry.commandRecord ts
          (EngineCommand.cancelOrderCmd cid ts p)] }).books sym
      with _ | book
    · simp only [hb]
      simp [Engine.commandsOfLog, List.filterMap_append]
    · simp only [hb]
      split <;> simp [Engine.commandsOfLog, List.filterMap_append]

/-- The commands a live session appends to the log, op by op. -/
def opsCommands : Engine → List EngineOp → List EngineCommand
  | _, [] => []
  | e, EngineOp.submit req now :: rest =>
      EngineCommand.submitOrderCmd (buildId e.gen "cmd").1 now req ::
        opsCommands (Engine.runOp e (EngineOp.submit req now)) rest
  | e, EngineOp.cancel oid uid sym now :: rest =>
      EngineCommand.cancelOrderCmd (buildId e.gen "cmd").1 now
          { orderId := oid, userId := uid, symbol := sym } ::
        opsCommands (Engine.runOp e (EngineOp.cancel oid uid sym now)) rest

/-- The command view of a live session's log is the initial commands
followed by the session's own commands. -/
theorem commandsOfLog_runOps (ops : List EngineOp) : ∀ e : Engine,
    Engine.commandsOfLog (Engine.runOps e ops).log =
      Engine.commandsOfLog e.log ++ opsCommands e ops := by
  induction ops with
  | nil => intro e; simp [Engine.runOps, opsCommands]
  | cons op rest ih =>
      intro e
      rcases op with ⟨req, now⟩ | ⟨oid, uid, sym, now⟩
      · have hstep : Engine.commandsOfLog
            (Engine.runOp e (EngineOp.submit req now)).log =
            Engine.commandsOfLog e.log ++
              [EngineCommand.submitOrderCmd (buildId e.gen "cmd").1 now
                req] := by
          simp only [Engine.runOp, Engine.submitOrder]
          exact commandsOfLog_applySubmit _ _ _ _
        show Engine.commandsOfLog
            (Engine.runOps (Engine.runOp e (EngineOp.submit req now))
              rest).log =
          Engine.commandsOfLog e.log ++
            opsCommands e (EngineOp.submit req now :: rest)
        rw [ih, hstep, opsCommands, List.append_assoc]
        rfl
      · have hstep : Engine.commandsOfLog
            (Engine.runOp e (EngineOp.cancel oid uid sym now)).log =
            Engine.commandsOfLog e.log ++
              [EngineCommand.cancelOrderCmd (buildId e.gen "cmd").1 now
                { orderId := oid, userId := uid, symbol := sym }] := by
          simp only [Engine.runOp, Engine.cancelOrder]
          exact commandsOfLog_applyCancel _ _ _ _
        show Engine.commandsOfLog
            (Engine.runOps (Engine.runOp e (EngineOp.cancel oid uid sym now))
              rest).log =
          Engine.commandsOfLog e.log ++
            opsCommands e (EngineOp.cancel oid uid sym now :: rest)
        rw [ih, hstep, opsCommands, List.append_assoc]
        rfl

end HyperEvm

namespace HyperEvm

/-- Replaying the session's own commands over any related engine tracks
the live session, provided every submit carries a caller-supplied id. -/
theorem replay_runOps_sim (ops : List EngineOp) :
    ∀ (eL eR : Engine) (nm : ℕ × ℕ),
    (∀ op ∈ ops, opHasId op) → EngineSim eL eR →
    EngineSim (Engine.runOps eL ops)
      (List.foldl Engine.replayStep (eR, nm) (opsCommands eL ops)).1 := by
  induction ops with
  | nil =>
      intro eL eR nm _ h
      exact h
  | cons op rest ih =>
      intro eL eR nm hids h
      rcases op with ⟨req, now⟩ | ⟨oid, uid, sym, now⟩
      · obtain ⟨i, hi⟩ := hids (EngineOp.submit req now) (by simp)
        show EngineSim
          (Engine.runOps (Engine.runOp eL (EngineOp.submit req now)) rest)
          (List.foldl Engine.replayStep
            (Engine.replayStep (eR, nm)
              (EngineCommand.submitOrderCmd (buildId eL.gen "cmd").1 now
                req))
            (opsCommands (Engine.runOp eL (EngineOp.submit req now))
              rest)).1
        rcases hrs : Engine.replayStep (eR, nm)
            (EngineCommand.submitOrderCmd (buildId eL.gen "cmd").1 now req)
          with ⟨eR1, nm1⟩
        have heR1 : eR1 = (Engine.applySubmitOrder eR
            (buildId eL.gen "cmd").1 now req false).2 := by
          have := replayStep_engine (eR, nm)
            (EngineCommand.submitOrderCmd (buildId eL.gen "cmd").1 now req)
          rw [hrs] at this
          exact this
        apply ih _ _ nm1 (fun o ho => hids o (List.mem_cons_of_mem _ ho))
        have hL : Engine.runOp eL (EngineOp.submit req now) =
            (Engine.applySubmitOrder { eL with gen := (buildId eL.gen "cmd").2 }
              (buildId eL.gen "cmd").1 now req true).2 := rfl
        rw [hL, heR1]
        apply applySubmitOrder_sim _ _ _ _ _ now req true false i hi
        exact ⟨h.1, h.2.1, h.2.2⟩
      · show EngineSim
          (Engine.runOps (Engine.runOp eL (EngineOp.cancel oid uid sym now))
            rest)
          (List.foldl Engine.replayStep
            (Engine.replayStep (eR, nm)
              (EngineCommand.cancelOrderCmd (buildId eL.gen "cmd").1 now
                { orderId := oid, userId := uid, symbol := sym }))
            (opsCommands (Engine.runOp eL (EngineOp.cancel oid uid sym now))
              rest)).1
        rcases hrs : Engine.replayStep (eR, nm)
            (EngineCommand.cancelOrderCmd (buildId eL.gen "cmd").1 now
              { orderId := oid, userId := uid, symbol := sym })
          with ⟨eR1, nm1⟩
        have heR1 : eR1 = (Engine.applyCancelOrder eR
            (buildId eL.gen "cmd").1 now
            { orderId := oid, userId := uid, symbol := sym } false).2 := by
          have := replayStep_engine (eR, nm)
            (EngineCommand.cancelOrderCmd (buildId eL.gen "cmd").1 now
              { orderId := oid, userId := uid, symbol := sym })
          rw [hrs] at this
          exact this
        apply ih _ _ nm1 (fun o ho => hids o (List.mem_cons_of_mem _ ho))
        have hL : Engine.runOp eL (EngineOp.cancel oid uid sym now) =
            (Engine.applyCancelOrder { eL with gen := (buildId eL.gen "cmd").2 }
              (buildId eL.gen "cmd").1 now
              { orderId := oid, userId := uid, symbol := sym } true).2 := rfl
        rw [hL, heR1]
        apply applyCancelOrder_sim _ _ _ _ _ now
          { orderId := oid, userId := uid, symbol := sym } true false
        exact ⟨h.1, h.2.1, h.2.2⟩

end HyperEvm

namespace HyperEvm

/-! ## C5 -/

/-- A one-symbol engine configuration matching the repository tests. -/
def c5Config : EngineConfig :=
  { symbols := ["ETH-USD"], tickSize := 1, lotSize := 1,
    minOrderQuantity := 1, maxOrderBookDepth := 200 }

/-- A submit request without a caller-supplied id. -/
def c5NoIdReq : OrderRequest :=
  { sampleReq "x" "u" .sell .limit 5 (some 101) Option.none with
      id := Option.none }

/-- A live session: submit without id, then cancel the id the live
engine generated for that order (`ord_1` on the live id stream). -/
def c5BadOps : List EngineOp :=
  [.submit c5NoIdReq 1, .cancel "ord_1" Option.none (some "ETH-USD") 2]

/-- The live engine after the session. -/
def c5Live : Engine :=
  Engine.runOps (Engine.init c5Config 123 sampleGen) c5BadOps

/-- A fresh engine with the same configuration and seed (but a new
process's id stream) after replaying the live engine's command log. -/
def c5Replayed : Engine :=
  (Engine.replayFromCommandLog (Engine.init c5Config 123 sampleGenB)
    (Engine.commandsOfLog c5Live.log)).1

attribute [local semireducible] Rat.sub Rat.add Rat.mul Rat.inv
  Rat.ofScientific in
/-- C5 (counterexample): replaying the command log written by a live
engine on a fresh engine with the same configuration and seed does not
reproduce the live depth when the log contains a submit without a
caller-supplied id followed by a cancel of the generated id.  The
replayed engine draws a different generated order id, so the logged
cancel of `ord_1` misses, leaving the sell resting: the live ask depth
is empty, the replayed ask depth is not. -/
theorem c5_counterexample :
    Engine.getDepth c5Live "ETH-USD" Option.none = some ([], []) ∧
    Engine.getDepth c5Replayed "ETH-USD" Option.none =
      some ([], [{ price := 101, quantity := 5, orderCount := 1 }]) ∧
    Engine.getDepth c5Live "ETH-USD" Option.none ≠
      Engine.getDepth c5Replayed "ETH-USD" Option.none := by
  decide

/-- C5 (amended): for every fresh engine constructed with the same
configuration and seed, replaying the command log written by a live
session (via `replayFromCommandLog` over `readCommands`' command view)
yields, for every symbol, bid and ask depth snapshots equal to the live
engine's — provided every submit command carries a caller-supplied id.
Cancels, including cancels of those ids, replay faithfully. -/
theorem c5_replay_depths_with_ids (config : EngineConfig) (seed : ℕ)
    (gA gB : IdGen) (ops : List EngineOp)
    (hids : ∀ op ∈ ops, opHasId op) (symbol : String) (depth : Option ℕ) :
    Engine.getDepth (Engine.runOps (Engine.init config seed gA) ops)
        symbol depth =
      Engine.getDepth
        (Engine.replayFromCommandLog (Engine.init config seed gB)
          (Engine.commandsOfLog
            (Engine.runOps (Engine.init config seed gA) ops).log)).1
        symbol depth := by
  have hcl := commandsOfLog_runOps ops (Engine.init config seed gA)
  have hinit : Engine.commandsOfLog (Engine.init config seed gA).log =
    [] := rfl
  rw [hcl, hinit, List.nil_append]
  unfold Engine.replayFromCommandLog
  exact engine_getDepth_sim _ _
    (replay_runOps_sim ops _ _ (0, 0) hids (init_sim config seed gA gB))
    symbol depth

/-- The live session of the witness: submit with caller id `w1`, then
cancel `w1`. -/
def c5GoodOps : List EngineOp :=
  [.submit (sampleReq "w1" "u" .sell .limit 5 (some 101) Option.none) 1,
   .cancel "w1" Option.none (some "ETH-USD") 2]

/-- C5 witness: with caller-supplied ids the amended claim holds on a
concrete session including a cancel of a submitted id. -/
theorem c5_witness :
    (∀ op ∈ c5GoodOps, opHasId op) ∧
    Engine.getDepth (Engine.runOps (Engine.init c5Config 123 sampleGen)
        c5GoodOps) "ETH-USD" Option.none =
      Engine.getDepth
        (Engine.replayFromCommandLog (Engine.init c5Config 123 sampleGenB)
          (Engine.commandsOfLog
            (Engine.runOps (Engine.init c5Config 123 sampleGen)
              c5GoodOps).log)).1
        "ETH-USD" Option.none := by
  have hids : ∀ op ∈ c5GoodOps, opHasId op := by
    intro op hop
    rcases List.mem_cons.mp hop with rfl | hop'
    · exact ⟨"w1", rfl⟩
    · rcases List.mem_cons.mp hop' with rfl | hop''
      · trivial
      · cases hop''
  exact ⟨hids, c5_replay_depths_with_ids c5Config 123 sampleGen sampleGenB
    c5GoodOps hids "ETH-USD" Option.none⟩

end HyperEvm
